import Mathlib

/-! Shallow embedding of the M5 data-loading module (src/data/load_data.py):
the tabular data model, calendar feature derivation, wide-to-long melting,
hierarchy extraction, and the orchestration helpers, together with proofs of
the specified properties. -/

namespace M5

/-- Decidable equality of fallible results, used to evaluate the embedding on
concrete inputs. -/
instance {ε α : Type} [DecidableEq ε] [DecidableEq α] : DecidableEq (Except ε α) :=
  fun a b =>
    match a, b with
    | .error e, .error f =>
      if h : e = f then .isTrue (by rw [h]) else .isFalse (by simp [h])
    | .error _, .ok _ => .isFalse (by simp)
    | .ok _, .error _ => .isFalse (by simp)
    | .ok x, .ok y =>
      if h : x = y then .isTrue (by rw [h]) else .isFalse (by simp [h])

/-- Calendar dates as year/month/day triples (embedding of pandas datetime values). -/
structure Date where
  year : Nat
  month : Nat
  day : Nat
deriving DecidableEq

/-- Numeric encoding of a date; on calendar dates it is monotone in
chronological order, so datetime comparison is encoded-key comparison. -/
def dateKey (d : Date) : Nat := (d.year * 13 + d.month) * 32 + d.day

/-- Day of week by Zeller's congruence, with the pandas convention 0 = Monday
(as produced by the dt.dayofweek accessor). -/
def dayofweekOf (d : Date) : Nat :=
  let m := if d.month ≤ 2 then d.month + 12 else d.month
  let y := if d.month ≤ 2 then d.year - 1 else d.year
  let k := y % 100
  let j := y / 100
  (d.day + (13 * (m + 1)) / 5 + k + k / 4 + j / 4 + 5 * j + 5) % 7

/-- Quarter of the year of a date (dt.quarter). -/
def quarterOf (d : Date) : Nat := (d.month + 2) / 3

/-- Cell values of a table: strings, integers, datetimes, or missing (NaN/NaT). -/
inductive Val where
  | str (s : String)
  | int (n : Int)
  | date (d : Date)
  | na
deriving DecidableEq

/-- Sort-key space: a lexicographic product carrying a linear order for
encoded cell values. -/
abbrev SortKey := Lex (Nat × Lex (List Nat × Lex (Int × Nat)))

/-- A string as its list of character codes; lexicographic comparison of
these lists is string comparison. -/
def strCodes (s : String) : List Nat := s.data.map Char.toNat

/-- Encode a cell value for ordering. Values of the same kind compare by
payload; missing values get the largest tag, so they sort last, matching the
pandas default na_position. -/
def valKey : Val → SortKey
  | .str s => toLex (0, toLex (strCodes s, toLex (0, 0)))
  | .int n => toLex (1, toLex ([], toLex (n, 0)))
  | .date d => toLex (2, toLex ([], toLex (0, dateKey d)))
  | .na => toLex (3, toLex ([], toLex (0, 0)))

/-- A data frame: a list of column labels and a list of rows of cell values. -/
structure DataFrame where
  cols : List String
  rows : List (List Val)
deriving DecidableEq

/-- Read the cell of a row at a column position; out-of-range reads are missing. -/
def getCell (r : List Val) (i : Nat) : Val := r.getD i Val.na

/-- A frame is well formed when every row has exactly one cell per column. -/
def WF (df : DataFrame) : Prop := ∀ r ∈ df.rows, r.length = df.cols.length

/-- Position of the first occurrence of a value in a list (length when
absent): the label-to-position resolution of a column lookup. -/
def firstIdx [DecidableEq α] : List α → α → Nat
  | [], _ => 0
  | x :: xs, a => if a = x then 0 else firstIdx xs a + 1

/-- Position of the first occurrence of a value in a list, none when absent. -/
def firstIdx? [DecidableEq α] : List α → α → Option Nat
  | [], _ => none
  | x :: xs, a => if a = x then some 0 else (firstIdx? xs a).map (· + 1)

/-- Column selection df[c]: the list of cells under label c, or a KeyError
when the label is absent. -/
def getColumn (df : DataFrame) (c : String) : Except String (List Val) :=
  match firstIdx? df.cols c with
  | some i => .ok (df.rows.map (fun r => getCell r i))
  | none => .error ("KeyError: " ++ c)

/-- Column assignment df[c] = vals: replace the column in place when the
label exists, otherwise append it on the right (pandas setitem). -/
def setCol (df : DataFrame) (c : String) (vals : List Val) : DataFrame :=
  match firstIdx? df.cols c with
  | some i => { cols := df.cols, rows := df.rows.zipWith (fun r v => r.set i v) vals }
  | none => { cols := df.cols ++ [c], rows := df.rows.zipWith (fun r v => r ++ [v]) vals }

/-- Distinct values of a list in order of first appearance
(pandas Series.unique / DataFrame.drop_duplicates keep first). -/
def uniqueFirst [DecidableEq α] : List α → List α
  | [] => []
  | x :: xs => x :: (uniqueFirst xs).filter (fun y => decide (y ≠ x))

/-- Insert a key/value pair into an association list with Python dict
semantics: overwriting an existing key keeps its position, a new key is
appended at the end. -/
def dictInsert [DecidableEq α] (m : List (α × β)) (k : α) (v : β) : List (α × β) :=
  if m.any (fun p => decide (p.1 = k)) then
    m.map (fun p => if p.1 = k then (k, v) else p)
  else m ++ [(k, v)]

/-- Build a Python dict from a pair list: later pairs overwrite earlier ones
(the semantics of Series.to_dict over a duplicated index). -/
def dictOfPairs [DecidableEq α] (l : List (α × β)) : List (α × β) :=
  l.foldl (fun m p => dictInsert m p.1 p.2) []

/-- The hierarchy dictionary built by create_hierarchical_structure. -/
structure Hierarchy where
  states : List Val
  stores : List Val
  categories : List Val
  departments : List Val
  items : List Val
  store_state_mapping : List (Val × Val)
  item_hierarchy : List (Val × (Val × Val))
deriving DecidableEq

/-- create_hierarchical_structure(sales_df): unique values per level, a
store to state map and an item to dept/cat map, each obtained from the
first-kept distinct rows and indexed with dict (last-wins) semantics.
A missing column surfaces as a KeyError, in the access order of the code. -/
def create_hierarchical_structure (sales : DataFrame) : Except String Hierarchy := do
  let stateCol ← getColumn sales "state_id"
  let storeCol ← getColumn sales "store_id"
  let catCol ← getColumn sales "cat_id"
  let deptCol ← getColumn sales "dept_id"
  let itemCol ← getColumn sales "item_id"
  let storeStatePairs := uniqueFirst (List.zip storeCol stateCol)
  let itemTriples := uniqueFirst (List.zip itemCol (List.zip deptCol catCol))
  .ok { states := uniqueFirst stateCol
        stores := uniqueFirst storeCol
        categories := uniqueFirst catCol
        departments := uniqueFirst deptCol
        items := uniqueFirst itemCol
        store_state_mapping := dictOfPairs storeStatePairs
        item_hierarchy := dictOfPairs itemTriples }

/-- The day-column naming convention, col.startswith of d and underscore:
a label denotes a day when its first two characters are d and underscore. -/
def isDayCol (c : String) : Bool :=
  match c.data with
  | 'd' :: '_' :: _ => true
  | _ => false

/-- The identifier (non-day) columns of a sales frame. -/
def idColsOf (df : DataFrame) : List String := df.cols.filter (fun c => ! isDayCol c)

/-- The day columns of a sales frame. -/
def dayColsOf (df : DataFrame) : List String := df.cols.filter isDayCol

/-- One melted row: the identifier cells of a source row, then the day-column
name under the variable column d, then that day's cell under sales. -/
def mkMeltRow (sales : DataFrame) (c : String) (s : List Val) : List Val :=
  (idColsOf sales).map (fun ic => getCell s (firstIdx sales.cols ic))
    ++ [Val.str c, getCell s (firstIdx sales.cols c)]

/-- pd.melt(sales, id_vars, value_vars, var_name d, value_name sales):
one output row per (day column, source row) pair, stacked day column by
day column. -/
def meltStep (sales : DataFrame) : DataFrame :=
  { cols := idColsOf sales ++ ["d", "sales"]
    rows := (dayColsOf sales).flatMap (fun c => sales.rows.map (mkMeltRow sales c)) }

/-- The left-join expansion of one melted row: the calendar rows matching its
d cell; no match appends a missing date, k matches repeat the row k times
with each matched date, in calendar order. -/
def expandRow (calendar : DataFrame) (di ti dIdx : Nat) (r : List Val) : List (List Val) :=
  if (calendar.rows.filter (fun cr => decide (getCell cr di = getCell r dIdx))).isEmpty
  then [r ++ [Val.na]]
  else (calendar.rows.filter (fun cr => decide (getCell cr di = getCell r dIdx))).map
    (fun cr => r ++ [getCell cr ti])

/-- melted.merge(calendar[[d, date]], on d, how left): each left row is kept
in order and expanded against the calendar; a KeyError is raised when the
calendar lacks the d or date column. -/
def mergeStep (melted calendar : DataFrame) : Except String DataFrame :=
  match firstIdx? calendar.cols "d", firstIdx? calendar.cols "date" with
  | some di, some ti =>
    .ok { cols := melted.cols ++ ["date"]
          rows := melted.rows.flatMap
            (expandRow calendar di ti (firstIdx melted.cols "d")) }
  | _, _ => .error "KeyError: d/date"

/-- The sort key of a row: its item cell then its date cell, encoded. -/
def rowKey (i j : Nat) (r : List Val) : Lex (SortKey × SortKey) :=
  toLex (valKey (getCell r i), valKey (getCell r j))

/-- Row comparison used by the final sort: ascending in (item, date) key. -/
def rowLe (i j : Nat) (a b : List Val) : Prop := rowKey i j a ≤ rowKey i j b

instance (i j : Nat) : IsTotal (List Val) (rowLe i j) := ⟨fun _ _ => le_total _ _⟩

instance (i j : Nat) : IsTrans (List Val) (rowLe i j) := ⟨fun _ _ _ h1 h2 => le_trans h1 h2⟩

instance (i j : Nat) : DecidableRel (rowLe i j) :=
  fun a b => inferInstanceAs (Decidable (rowKey i j a ≤ rowKey i j b))

/-- merged.sort_values([item_id, date]).reset_index(drop=True): a stable
lexicographic sort on the item then date columns (pandas multi-key sorting
uses a stable lexsort); missing keys raise. The fresh 0-based index is the
list position. -/
def sortStep (df : DataFrame) : Except String DataFrame :=
  match firstIdx? df.cols "item_id", firstIdx? df.cols "date" with
  | some i, some j => .ok { cols := df.cols, rows := df.rows.insertionSort (rowLe i j) }
  | _, _ => .error "KeyError: item_id/date"

/-- melt_sales_data(sales_df, calendar_df): melt, left-merge the calendar
dates, then sort by item and date. -/
def melt_sales_data (sales calendar : DataFrame) : Except String DataFrame := do
  let merged ← mergeStep (meltStep sales) calendar
  sortStep merged

/-- The integer content of a cell; non-numeric cells contribute nothing to a
sum. -/
def valToInt : Val → Int
  | .int n => n
  | _ => 0

/-- Sum of the numeric content of a list of cells (Series.sum). -/
def sumVals (l : List Val) : Int := l.foldl (fun a v => a + valToInt v) 0

/-- Round-trip group membership: a melted output row belongs to the group of
source row s and day column c when its item cell equals s's item identifier
and its d cell names c. -/
def groupOf (sales : DataFrame) (s : List Val) (c : String) (r : List Val) : Bool :=
  decide (getCell r (firstIdx (idColsOf sales) "item_id") =
      getCell s (firstIdx sales.cols "item_id")) &&
    decide (getCell r (idColsOf sales).length = Val.str c)

/-- The file system seen by the loader: a parsed frame per readable path,
none for an absent or unreadable file. -/
def FS : Type := String → Option DataFrame

/-- os.path.join(data_dir, filename). -/
def getFilePath (dataDir fname : String) : String := dataDir ++ "/" ++ fname

/-- pd.read_csv: the parsed frame of the file at a path, or a
FileNotFoundError when the path cannot be read. -/
def read_csv (fs : FS) (path : String) : Except String DataFrame :=
  match fs path with
  | some df => .ok df
  | none => .error ("FileNotFoundError: " ++ path)

/-- pd.to_datetime on one cell: succeeds exactly on values carrying a date
(the embedding of a parseable date string), anything else is a parse error. -/
def to_datetime (v : Val) : Except String Date :=
  match v with
  | .date d => .ok d
  | _ => .error "DateParseError"

/-- pd.to_datetime over a whole column: coerce every cell, failing on the
first unparseable one. -/
def to_datetime_col : List Val → Except String (List Date)
  | [] => .ok []
  | v :: vs => do
    let d ← to_datetime v
    let ds ← to_datetime_col vs
    .ok (d :: ds)

/-- Membership test of a cell among int literals (Series.isin([5, 6])),
followed by astype(int): 1 when the value is listed, else 0. -/
def isinInt (l : List Int) (v : Val) : Val :=
  match v with
  | .int n => if n ∈ l then .int 1 else .int 0
  | _ => .int 0

/-- The in-place date coercion and the five derived date-part columns of
load_calendar: date, then year, month, day, dayofweek and quarter. -/
def deriveCalendarCols (calendar : DataFrame) (dates : List Date) : DataFrame :=
  setCol
    (setCol
      (setCol
        (setCol
          (setCol (setCol calendar "date" (dates.map Val.date))
            "year" (dates.map (fun d => Val.int d.year)))
          "month" (dates.map (fun d => Val.int d.month)))
        "day" (dates.map (fun d => Val.int d.day)))
      "dayofweek" (dates.map (fun d => Val.int (dayofweekOf d))))
    "quarter" (dates.map (fun d => Val.int (quarterOf d)))

/-- M5DataLoader.load_calendar: read calendar.csv, coerce the date column to
datetime, then derive year, month, day, dayofweek, quarter and the weekend
flag; the flag is computed from the dayofweek column via isin([5,6]) and
stored as an integer by astype(int). -/
def load_calendar (fs : FS) (dataDir : String) : Except String DataFrame := do
  let calendar ← read_csv fs (getFilePath dataDir "calendar.csv")
  let dateCol ← getColumn calendar "date"
  let dates ← to_datetime_col dateCol
  let derived := deriveCalendarCols calendar dates
  let dowCol ← getColumn derived "dayofweek"
  .ok (setCol derived "is_weekend" (dowCol.map (isinInt [5, 6])))

/-- M5DataLoader.load_sales_data(validation): read the validation or the
evaluation sales file, selected by the flag. -/
def load_sales_data (fs : FS) (dataDir : String) (validation : Bool) :
    Except String DataFrame :=
  let fname := if validation then "sales_train_validation.csv" else "sales_train_evaluation.csv"
  read_csv fs (getFilePath dataDir fname)

/-- M5DataLoader.load_prices: read sell_prices.csv. -/
def load_prices (fs : FS) (dataDir : String) : Except String DataFrame :=
  read_csv fs (getFilePath dataDir "sell_prices.csv")

/-- M5DataLoader.load_sample_submission: read sample_submission.csv. -/
def load_sample_submission (fs : FS) (dataDir : String) : Except String DataFrame :=
  read_csv fs (getFilePath dataDir "sample_submission.csv")

/-- M5DataLoader.load_all_data: the four loads in program order, collected in
an insertion-ordered dictionary; the first failure aborts the call. -/
def load_all_data (fs : FS) (dataDir : String) (validation : Bool) :
    Except String (List (String × DataFrame)) := do
  let calendar ← load_calendar fs dataDir
  let sales ← load_sales_data fs dataDir validation
  let prices ← load_prices fs dataDir
  let submission ← load_sample_submission fs dataDir
  .ok [("calendar", calendar), ("sales", sales), ("prices", prices),
       ("sample_submission", submission)]

/-- load_data(data_dir, validation): convenience wrapper over load_all_data. -/
def load_data (fs : FS) (dataDir : String) (validation : Bool) :
    Except String (List (String × DataFrame)) :=
  load_all_data fs dataDir validation

/-- load_and_prepare_data(data_dir, validation, melt_sales): load everything,
always build the hierarchy from the sales table, melt only when requested
(the melted table is appended to the dictionary), and return both. -/
def load_and_prepare_data (fs : FS) (dataDir : String) (validation melt_sales : Bool) :
    Except String (List (String × DataFrame) × Hierarchy) := do
  let data ← load_all_data fs dataDir validation
  match data.lookup "sales", data.lookup "calendar" with
  | some sales, some calendar => do
    let hierarchy ← create_hierarchical_structure sales
    if melt_sales then do
      let melted ← melt_sales_data sales calendar
      .ok (data ++ [("sales_melted", melted)], hierarchy)
    else
      .ok (data, hierarchy)
  | _, _ => .error "KeyError: sales/calendar"

/-- A list enumerates the distinct values of a column when it has no
duplicates, the same members, and lists them by first appearance. -/
def firstAppearanceList (lst col : List Val) : Prop :=
  lst.Nodup ∧ (∀ v, v ∈ lst ↔ v ∈ col) ∧
    lst.Pairwise (fun a b => firstIdx col a < firstIdx col b)

/-! Concrete frames and file systems used to evaluate the embedding. -/

/-- A two-day calendar slice with distinct day keys. -/
def exCalendar : DataFrame :=
  ⟨["d", "date"],
   [[.str "d_1", .date ⟨2016, 1, 2⟩], [.str "d_2", .date ⟨2016, 1, 3⟩]]⟩

/-- A calendar slice whose day key d_1 occurs twice. -/
def exCalendarDup : DataFrame :=
  ⟨["d", "date"],
   [[.str "d_1", .date ⟨2016, 1, 2⟩], [.str "d_1", .date ⟨2016, 1, 3⟩]]⟩

/-- A small wide sales table with two items and two day columns. -/
def exSales : DataFrame :=
  ⟨["id", "item_id", "d_1", "d_2"],
   [[.str "B1", .str "B", .int 5, .int 0],
    [.str "A1", .str "A", .int 3, .int 7]]⟩

/-- The pre-sort merged long frame of exSales against exCalendar. -/
def exMerged : DataFrame :=
  ⟨["id", "item_id", "d", "sales", "date"],
   [[.str "B1", .str "B", .str "d_1", .int 5, .date ⟨2016, 1, 2⟩],
    [.str "A1", .str "A", .str "d_1", .int 3, .date ⟨2016, 1, 2⟩],
    [.str "B1", .str "B", .str "d_2", .int 0, .date ⟨2016, 1, 3⟩],
    [.str "A1", .str "A", .str "d_2", .int 7, .date ⟨2016, 1, 3⟩]]⟩

/-- The final melted frame of exSales against exCalendar. -/
def exMelted : DataFrame :=
  ⟨["id", "item_id", "d", "sales", "date"],
   [[.str "A1", .str "A", .str "d_1", .int 3, .date ⟨2016, 1, 2⟩],
    [.str "A1", .str "A", .str "d_2", .int 7, .date ⟨2016, 1, 3⟩],
    [.str "B1", .str "B", .str "d_1", .int 5, .date ⟨2016, 1, 2⟩],
    [.str "B1", .str "B", .str "d_2", .int 0, .date ⟨2016, 1, 3⟩]]⟩

/-- A one-row, one-day sales table. -/
def exSalesOne : DataFrame :=
  ⟨["item_id", "d_1"], [[.str "A", .int 7]]⟩

/-- One item sold in two stores, with one day column. -/
def exSalesTwoStores : DataFrame :=
  ⟨["item_id", "store_id", "d_1"],
   [[.str "A", .str "S1", .int 1], [.str "A", .str "S2", .int 2]]⟩

/-- A sales table whose day column d_3 is absent from exCalendar. -/
def exSalesOrphan : DataFrame :=
  ⟨["item_id", "d_3"], [[.str "A", .int 1]]⟩

/-- A store appearing with state CA, then TX, then CA again. -/
def exSalesFlip : DataFrame :=
  ⟨["item_id", "dept_id", "cat_id", "store_id", "state_id"],
   [[.str "I1", .str "D1", .str "C1", .str "S1", .str "CA"],
    [.str "I2", .str "D1", .str "C1", .str "S1", .str "TX"],
    [.str "I3", .str "D1", .str "C1", .str "S1", .str "CA"]]⟩

/-- The hierarchy create_hierarchical_structure extracts from exSalesFlip. -/
def exHierFlip : Hierarchy :=
  { states := [.str "CA", .str "TX"]
    stores := [.str "S1"]
    categories := [.str "C1"]
    departments := [.str "D1"]
    items := [.str "I1", .str "I2", .str "I3"]
    store_state_mapping := [(.str "S1", .str "TX")]
    item_hierarchy := [(.str "I1", (.str "D1", .str "C1")),
      (.str "I2", (.str "D1", .str "C1")), (.str "I3", (.str "D1", .str "C1"))] }

/-- A sales table with the full identifier schema and one day column. -/
def exSalesFull : DataFrame :=
  ⟨["id", "item_id", "dept_id", "cat_id", "store_id", "state_id", "d_1"],
   [[.str "A1", .str "A", .str "D1", .str "C1", .str "S1", .str "CA", .int 4],
    [.str "B1", .str "B", .str "D2", .str "C2", .str "S2", .str "TX", .int 6]]⟩

/-- A sales table missing the state_id column. -/
def exSalesNoState : DataFrame :=
  ⟨["item_id", "dept_id", "cat_id", "store_id"],
   [[.str "I1", .str "D1", .str "C1", .str "S1"]]⟩

/-- The raw calendar file behind the example file systems. -/
def exRawCalendar : DataFrame :=
  ⟨["date", "d"], [[.date ⟨2016, 1, 2⟩, .str "d_1"]]⟩

/-- The calendar frame load_calendar produces from exRawCalendar. -/
def exLoadedCalendar : DataFrame :=
  ⟨["date", "d", "year", "month", "day", "dayofweek", "quarter", "is_weekend"],
   [[.date ⟨2016, 1, 2⟩, .str "d_1", .int 2016, .int 1, .int 2, .int 5, .int 1,
     .int 1]]⟩

/-- A small prices table. -/
def exPrices : DataFrame :=
  ⟨["store_id", "item_id", "wm_yr_wk", "sell_price"],
   [[.str "S1", .str "A", .int 11101, .int 2]]⟩

/-- A small sample submission table. -/
def exSubmission : DataFrame :=
  ⟨["id", "F1"], [[.str "A1", .int 0]]⟩

/-- The table collection load_all_data builds from exFS. -/
def exData : List (String × DataFrame) :=
  [("calendar", exLoadedCalendar), ("sales", exSalesFull),
   ("prices", exPrices), ("sample_submission", exSubmission)]

/-- The hierarchy extracted from exSalesFull. -/
def exHierFull : Hierarchy :=
  { states := [.str "CA", .str "TX"]
    stores := [.str "S1", .str "S2"]
    categories := [.str "C1", .str "C2"]
    departments := [.str "D1", .str "D2"]
    items := [.str "A", .str "B"]
    store_state_mapping := [(.str "S1", .str "CA"), (.str "S2", .str "TX")]
    item_hierarchy := [(.str "A", (.str "D1", .str "C1")),
      (.str "B", (.str "D2", .str "C2"))] }

/-- The melted frame of exSalesFull against the loaded example calendar. -/
def exMeltedFull : DataFrame :=
  ⟨["id", "item_id", "dept_id", "cat_id", "store_id", "state_id", "d", "sales",
    "date"],
   [[.str "A1", .str "A", .str "D1", .str "C1", .str "S1", .str "CA", .str "d_1",
     .int 4, .date ⟨2016, 1, 2⟩],
    [.str "B1", .str "B", .str "D2", .str "C2", .str "S2", .str "TX", .str "d_1",
     .int 6, .date ⟨2016, 1, 2⟩]]⟩

/-- A complete data directory: all four files are readable. -/
def exFS : FS := fun p =>
  if p = "data/calendar.csv" then some exRawCalendar
  else if p = "data/sales_train_validation.csv" then some exSalesFull
  else if p = "data/sell_prices.csv" then some exPrices
  else if p = "data/sample_submission.csv" then some exSubmission
  else none

/-- A data directory whose prices file is unreadable. -/
def exFSNoPrices : FS := fun p =>
  if p = "data/calendar.csv" then some exRawCalendar
  else if p = "data/sales_train_validation.csv" then some exSalesFull
  else if p = "data/sample_submission.csv" then some exSubmission
  else none

/-! Basic lemmas: first-occurrence positions and cell reads. -/

theorem firstIdx?_eq_none_iff [DecidableEq α] {l : List α} {a : α} :
    firstIdx? l a = none ↔ a ∉ l := by
  induction l with
  | nil => simp [firstIdx?]
  | cons x xs ih =>
    by_cases h : a = x <;> simp [firstIdx?, h, ih]

theorem firstIdx?_eq_some_firstIdx [DecidableEq α] {l : List α} {a : α} (h : a ∈ l) :
    firstIdx? l a = some (firstIdx l a) := by
  induction l with
  | nil => simp at h
  | cons x xs ih =>
    by_cases hx : a = x
    · simp [firstIdx?, firstIdx, hx]
    · have : a ∈ xs := by
        rcases List.mem_cons.mp h with h' | h'
        · exact absurd h' hx
        · exact h'
      simp [firstIdx?, firstIdx, hx, ih this]

theorem firstIdx_lt_length [DecidableEq α] {l : List α} {a : α} (h : a ∈ l) :
    firstIdx l a < l.length := by
  induction l with
  | nil => simp at h
  | cons x xs ih =>
    by_cases hx : a = x
    · simp [firstIdx, hx]
    · have : a ∈ xs := by
        rcases List.mem_cons.mp h with h' | h'
        · exact absurd h' hx
        · exact h'
      simpa [firstIdx, hx, Nat.succ_lt_succ_iff] using ih this

theorem getD_firstIdx [DecidableEq α] (d : α) {l : List α} {a : α} (h : a ∈ l) :
    l.getD (firstIdx l a) d = a := by
  induction l with
  | nil => simp at h
  | cons x xs ih =>
    by_cases hx : a = x
    · simp [firstIdx, hx]
    · have : a ∈ xs := by
        rcases List.mem_cons.mp h with h' | h'
        · exact absurd h' hx
        · exact h'
      simp only [firstIdx, if_neg hx, List.getD_cons_succ]
      exact ih this

theorem firstIdx_append_left [DecidableEq α] {l1 : List α} {a : α} (h : a ∈ l1)
    (l2 : List α) : firstIdx (l1 ++ l2) a = firstIdx l1 a := by
  induction l1 with
  | nil => simp at h
  | cons x xs ih =>
    by_cases hx : a = x
    · simp [firstIdx, hx]
    · have : a ∈ xs := by
        rcases List.mem_cons.mp h with h' | h'
        · exact absurd h' hx
        · exact h'
      simp [firstIdx, hx, ih this]

theorem firstIdx?_append_left [DecidableEq α] {l1 : List α} {a : α} (h : a ∈ l1)
    (l2 : List α) : firstIdx? (l1 ++ l2) a = some (firstIdx l1 a) := by
  rw [firstIdx?_eq_some_firstIdx (by simp [h]), firstIdx_append_left h]

theorem firstIdx?_append_right [DecidableEq α] {l1 : List α} {a : α} (h : a ∉ l1)
    (l2 : List α) : firstIdx? (l1 ++ l2) a = (firstIdx? l2 a).map (· + l1.length) := by
  induction l1 with
  | nil => simp
  | cons x xs ih =>
    have hx : a ≠ x := fun hh => h (by simp [hh])
    have hxs : a ∉ xs := fun hh => h (by simp [hh])
    rw [List.cons_append]
    show (if a = x then some 0 else (firstIdx? (xs ++ l2) a).map (· + 1))
        = (firstIdx? l2 a).map (· + (x :: xs).length)
    rw [if_neg hx, ih hxs]
    cases firstIdx? l2 a with
    | none => rfl
    | some v =>
      show some (v + xs.length + 1) = some (v + (xs.length + 1))
      rw [Nat.add_assoc]

theorem getCell_append_lt {l1 l2 : List Val} {i : Nat} (h : i < l1.length) :
    getCell (l1 ++ l2) i = getCell l1 i := by
  induction l1 generalizing i with
  | nil => simp at h
  | cons x xs ih =>
    cases i with
    | zero => simp [getCell]
    | succ k => simpa [getCell] using ih (Nat.lt_of_succ_lt_succ h)

theorem getCell_append_right (l1 : List Val) (l2 : List Val) (k : Nat) :
    getCell (l1 ++ l2) (l1.length + k) = getCell l2 k := by
  induction l1 with
  | nil => simp [getCell]
  | cons x xs ih => simpa [getCell, Nat.succ_add] using ih

theorem getCell_map {α : Type} {f : α → Val} {l : List α} {i : Nat} (h : i < l.length)
    (d : α) : getCell (l.map f) i = f (l.getD i d) := by
  induction l generalizing i with
  | nil => simp at h
  | cons x xs ih =>
    cases i with
    | zero => simp [getCell]
    | succ k => simpa [getCell] using ih (Nat.lt_of_succ_lt_succ h)

/-! Lemmas about first-appearance deduplication. -/

theorem mem_uniqueFirst [DecidableEq α] {l : List α} {a : α} :
    a ∈ uniqueFirst l ↔ a ∈ l := by
  induction l with
  | nil => simp [uniqueFirst]
  | cons x xs ih =>
    by_cases h : a = x
    · simp [uniqueFirst, h]
    · simp [uniqueFirst, h, List.mem_filter, ih]

theorem nodup_uniqueFirst [DecidableEq α] (l : List α) : (uniqueFirst l).Nodup := by
  induction l with
  | nil => simp [uniqueFirst]
  | cons x xs ih =>
    refine List.Nodup.cons ?_ (ih.filter _)
    intro hmem
    have := (List.mem_filter.mp hmem).2
    simp at this

theorem uniqueFirst_sublist [DecidableEq α] (l : List α) : (uniqueFirst l).Sublist l := by
  induction l with
  | nil => simp [uniqueFirst]
  | cons x xs ih =>
    exact ((List.filter_sublist _).trans ih).cons₂ x

theorem pairwise_firstIdx_uniqueFirst [DecidableEq α] (l : List α) :
    (uniqueFirst l).Pairwise (fun a b => firstIdx l a < firstIdx l b) := by
  induction l with
  | nil => simp [uniqueFirst]
  | cons x xs ih =>
    refine List.Pairwise.cons ?_ ?_
    · intro b hb
      have hbx : b ≠ x := by
        have := (List.mem_filter.mp hb).2
        simpa using this
      simp [firstIdx, hbx]
    · refine ((ih.filter _).imp_of_mem ?_)
      intro a b ha hb hab
      have hax : a ≠ x := by
        have := (List.mem_filter.mp ha).2
        simpa using this
      have hbx : b ≠ x := by
        have := (List.mem_filter.mp hb).2
        simpa using this
      simpa [firstIdx, hax, hbx] using hab

/-! Stability of the insertion sort: filtering the sorted output by any class
of mutually tie-related elements gives exactly the input's sublist of that
class, in input order. -/

theorem filter_orderedInsert_pos {α : Type} {r : α → α → Prop} [DecidableRel r]
    (p : α → Bool) (b : α) (l : List α) (hpb : p b = true)
    (hall : ∀ c, p c = true → r b c) :
    (l.orderedInsert r b).filter p = b :: l.filter p := by
  induction l with
  | nil => simp [List.orderedInsert, hpb]
  | cons c l ih =>
    by_cases hr : r b c
    · simp [List.orderedInsert, hr, hpb]
    · have hpc : p c = false := by
        cases hc : p c
        · rfl
        · exact absurd (hall c hc) hr
      simp [List.orderedInsert, hr, hpc, ih]

theorem filter_orderedInsert_neg {α : Type} {r : α → α → Prop} [DecidableRel r]
    (p : α → Bool) (b : α) (l : List α) (hpb : p b = false) :
    (l.orderedInsert r b).filter p = l.filter p := by
  induction l with
  | nil => simp [List.orderedInsert, hpb]
  | cons c l ih =>
    by_cases hr : r b c
    · simp [List.orderedInsert, hr, hpb]
    · cases hc : p c <;> simp [List.orderedInsert, hr, hc, ih]

theorem filter_insertionSort {α : Type} {r : α → α → Prop} [DecidableRel r]
    (p : α → Bool) (l : List α) (hall : ∀ a c, p a = true → p c = true → r a c) :
    (l.insertionSort r).filter p = l.filter p := by
  induction l with
  | nil => simp
  | cons b l ih =>
    cases hpb : p b
    · rw [List.insertionSort, filter_orderedInsert_neg p b _ hpb, ih]
      simp [hpb]
    · rw [List.insertionSort,
        filter_orderedInsert_pos p b _ hpb (fun c hc => hall b c hpb hc), ih]
      simp [hpb]

/-! Lemmas about the Python-dict model. -/

theorem any_key_iff [DecidableEq α] (m : List (α × β)) (k : α) :
    (m.any (fun p => decide (p.1 = k)) = true) ↔ k ∈ m.map Prod.fst := by
  rw [List.any_eq_true]
  constructor
  · rintro ⟨p, hp, he⟩
    exact List.mem_map.mpr ⟨p, hp, by simpa using he⟩
  · intro h
    rcases List.mem_map.mp h with ⟨p, hp, he⟩
    exact ⟨p, hp, by simpa using he⟩

theorem dictInsert_mem_sub [DecidableEq α] {m : List (α × β)} {k : α} {v : β}
    {q : α × β} (hq : q ∈ dictInsert m k v) : q ∈ m ∨ q = (k, v) := by
  unfold dictInsert at hq
  split at hq
  · rcases List.mem_map.mp hq with ⟨p, hp, he⟩
    by_cases hpk : p.1 = k
    · right
      rw [if_pos hpk] at he
      exact he.symm
    · left
      rw [if_neg hpk] at he
      exact he ▸ hp
  · rcases List.mem_append.mp hq with h | h
    · exact Or.inl h
    · right
      simpa using h

theorem mem_foldl_dictInsert [DecidableEq α] (l : List (α × β)) (acc : List (α × β))
    (q : α × β) (hq : q ∈ l.foldl (fun m p => dictInsert m p.1 p.2) acc) :
    q ∈ acc ∨ q ∈ l := by
  induction l generalizing acc with
  | nil => exact Or.inl hq
  | cons p l ih =>
    rcases ih _ hq with h | h
    · rcases dictInsert_mem_sub h with h' | h'
      · exact Or.inl h'
      · right
        simp [h']
    · right
      exact List.mem_cons_of_mem _ h

theorem mem_dictOfPairs_sub [DecidableEq α] {l : List (α × β)} {q : α × β}
    (hq : q ∈ dictOfPairs l) : q ∈ l := by
  rcases mem_foldl_dictInsert l [] q hq with h | h
  · simp at h
  · exact h

theorem dictInsert_keys_of_mem [DecidableEq α] {m : List (α × β)} {k : α} (v : β)
    (h : k ∈ m.map Prod.fst) :
    (dictInsert m k v).map Prod.fst = m.map Prod.fst := by
  unfold dictInsert
  rw [if_pos ((any_key_iff m k).mpr h), List.map_map]
  refine List.map_congr_left ?_
  intro p _
  by_cases hpk : p.1 = k
  · simp [Function.comp, hpk]
  · simp [Function.comp, hpk]

theorem dictInsert_keys_of_not_mem [DecidableEq α] {m : List (α × β)} {k : α} (v : β)
    (h : k ∉ m.map Prod.fst) :
    (dictInsert m k v).map Prod.fst = m.map Prod.fst ++ [k] := by
  unfold dictInsert
  rw [if_neg (fun hc => h ((any_key_iff m k).mp hc))]
  simp

theorem dictInsert_keys_sup [DecidableEq α] (m : List (α × β)) (k : α) (v : β)
    {a : α} (h : a ∈ m.map Prod.fst ∨ a = k) :
    a ∈ (dictInsert m k v).map Prod.fst := by
  by_cases hk : k ∈ m.map Prod.fst
  · rw [dictInsert_keys_of_mem v hk]
    rcases h with h | h
    · exact h
    · exact h ▸ hk
  · rw [dictInsert_keys_of_not_mem v hk]
    rcases h with h | h
    · exact List.mem_append_left _ h
    · simp [h]

theorem keys_foldl_dictInsert [DecidableEq α] (l : List (α × β)) (acc : List (α × β))
    {a : α} (h : a ∈ acc.map Prod.fst ∨ a ∈ l.map Prod.fst) :
    a ∈ (l.foldl (fun m p => dictInsert m p.1 p.2) acc).map Prod.fst := by
  induction l generalizing acc with
  | nil =>
    rcases h with h | h
    · exact h
    · simp at h
  | cons p l ih =>
    refine ih _ ?_
    rcases h with h | h
    · exact Or.inl (dictInsert_keys_sup acc p.1 p.2 (Or.inl h))
    · rcases List.mem_map.mp h with ⟨q, hq, he⟩
      rcases List.mem_cons.mp hq with h' | h'
      · exact Or.inl (dictInsert_keys_sup acc p.1 p.2 (Or.inr (by rw [← he, h'])))
      · exact Or.inr (List.mem_map.mpr ⟨q, h', he⟩)

theorem dictOfPairs_keys_mem [DecidableEq α] {l : List (α × β)} {k : α}
    (h : k ∈ l.map Prod.fst) : k ∈ (dictOfPairs l).map Prod.fst :=
  keys_foldl_dictInsert l [] (Or.inr h)

theorem dictInsert_keys_nodup [DecidableEq α] {m : List (α × β)}
    (h : (m.map Prod.fst).Nodup) (k : α) (v : β) :
    ((dictInsert m k v).map Prod.fst).Nodup := by
  by_cases hk : k ∈ m.map Prod.fst
  · rw [dictInsert_keys_of_mem v hk]
    exact h
  · rw [dictInsert_keys_of_not_mem v hk]
    refine h.append (List.nodup_singleton k) ?_
    intro a ha hb
    rw [List.mem_singleton.mp hb] at ha
    exact hk ha

theorem dictOfPairs_keys_nodup [DecidableEq α] (l : List (α × β)) :
    ((dictOfPairs l).map Prod.fst).Nodup := by
  have gen : ∀ acc : List (α × β), (acc.map Prod.fst).Nodup →
      ((l.foldl (fun m p => dictInsert m p.1 p.2) acc).map Prod.fst).Nodup := by
    induction l with
    | nil => intro acc hacc; exact hacc
    | cons p l ih =>
      intro acc hacc
      exact ih _ (dictInsert_keys_nodup hacc p.1 p.2)
  exact gen [] (by simp)

theorem filter_key_eq_nil_iff [DecidableEq α] (m : List (α × β)) (k : α) :
    m.filter (fun p => decide (p.1 = k)) = [] ↔ k ∉ m.map Prod.fst := by
  rw [List.filter_eq_nil_iff]
  constructor
  · intro h hk
    rcases List.mem_map.mp hk with ⟨p, hp, he⟩
    have hp2 := h p hp
    simp only [decide_eq_true_eq] at hp2
    exact hp2 he
  · intro h p hp
    simp only [decide_eq_true_eq]
    intro he
    exact h (List.mem_map.mpr ⟨p, hp, he⟩)

theorem filter_key_head [DecidableEq α] {m : List (α × β)} {k : α}
    (h : k ∈ m.map Prod.fst) :
    ∃ q, (m.filter (fun p => decide (p.1 = k))).head? = some q ∧ q.1 = k := by
  cases hf : m.filter (fun p => decide (p.1 = k)) with
  | nil => exact absurd ((filter_key_eq_nil_iff m k).mp hf) (by simpa using h)
  | cons q t =>
    refine ⟨q, rfl, ?_⟩
    have hq : q ∈ m.filter (fun p => decide (p.1 = k)) := by
      rw [hf]
      exact List.mem_cons_self q t
    simpa using List.of_mem_filter hq

theorem filter_key_map_keep [DecidableEq α] (m : List (α × β)) (f : α × β → α × β)
    (hf : ∀ q, (f q).1 = q.1) (k : α) :
    (m.map f).filter (fun p => decide (p.1 = k)) =
      (m.filter (fun p => decide (p.1 = k))).map f := by
  induction m with
  | nil => rfl
  | cons q m ih =>
    by_cases hq : q.1 = k
    · rw [List.map_cons, List.filter_cons, List.filter_cons]
      simp [hf, hq, ih]
    · rw [List.map_cons, List.filter_cons, List.filter_cons]
      simp [hf, hq, ih]

theorem dictOfPairs_concat [DecidableEq α] (l : List (α × β)) (p : α × β) :
    dictOfPairs (l ++ [p]) = dictInsert (dictOfPairs l) p.1 p.2 := by
  unfold dictOfPairs
  rw [List.foldl_append]
  rfl

/-- The central law of the dict model: the single entry a key holds is the
last pair carrying that key in the input list. -/
theorem dictOfPairs_filter_key [DecidableEq α] (l : List (α × β)) (k : α) :
    ((dictOfPairs l).filter (fun p => decide (p.1 = k))).head? =
      (l.filter (fun p => decide (p.1 = k))).getLast? := by
  induction l using List.reverseRecOn with
  | nil => rfl
  | append_singleton l p ih =>
    rw [dictOfPairs_concat, List.filter_append]
    by_cases hpk : p.1 = k
    · have hfp : [p].filter (fun q => decide (q.1 = k)) = [p] := by simp [hpk]
      rw [hfp, List.getLast?_concat]
      unfold dictInsert
      by_cases hm : p.1 ∈ (dictOfPairs l).map Prod.fst
      · rw [if_pos ((any_key_iff _ _).mpr hm)]
        rw [filter_key_map_keep _ _ (fun q => by by_cases hq : q.1 = p.1 <;> simp [hq]) k]
        rw [List.head?_map]
        rcases filter_key_head (hpk ▸ hm) with ⟨q, hq, hqk⟩
        rw [hq]
        have : q.1 = p.1 := by rw [hqk, hpk]
        simp [Option.map_some, this]
      · rw [if_neg (fun hc => hm ((any_key_iff _ _).mp hc))]
        rw [List.filter_append]
        have hnil : (dictOfPairs l).filter (fun q => decide (q.1 = k)) = [] :=
          (filter_key_eq_nil_iff _ _).mpr (by rw [← hpk]; exact hm)
        rw [hnil]
        have hfp2 : [(p.1, p.2)].filter (fun q => decide (q.1 = k)) = [(p.1, p.2)] := by
          simp [hpk]
        rw [hfp2]
        rfl
    · have hfp : [p].filter (fun q => decide (q.1 = k)) = [] := by simp [hpk]
      rw [hfp, List.append_nil]
      unfold dictInsert
      by_cases hm : p.1 ∈ (dictOfPairs l).map Prod.fst
      · rw [if_pos ((any_key_iff _ _).mpr hm)]
        rw [filter_key_map_keep _ _ (fun q => by by_cases hq : q.1 = p.1 <;> simp [hq]) k]
        have : ((dictOfPairs l).filter (fun q => decide (q.1 = k))).map
            (fun q => if q.1 = p.1 then (p.1, p.2) else q) =
            (dictOfPairs l).filter (fun q => decide (q.1 = k)) := by
          have h2 : ∀ q ∈ (dictOfPairs l).filter (fun q => decide (q.1 = k)),
              (if q.1 = p.1 then (p.1, p.2) else q) = q := by
            intro q hq
            have hqk : q.1 = k := by simpa using List.of_mem_filter hq
            rw [if_neg (fun hc => hpk (by rw [← hc, hqk]))]
          exact (List.map_congr_left h2).trans (List.map_id' _)
        rw [this]
        exact ih
      · rw [if_neg (fun hc => hm ((any_key_iff _ _).mp hc))]
        rw [List.filter_append]
        have hfp2 : [(p.1, p.2)].filter (fun q => decide (q.1 = k)) = [] := by simp [hpk]
        rw [hfp2, List.append_nil]
        exact ih

/-! Structural lemmas about the melt pipeline. -/

theorem mkMeltRow_length (sales : DataFrame) (c : String) (s : List Val) :
    (mkMeltRow sales c s).length = (idColsOf sales).length + 2 := by
  simp [mkMeltRow]

theorem mkMeltRow_dCell (sales : DataFrame) (c : String) (s : List Val) :
    getCell (mkMeltRow sales c s) (idColsOf sales).length = Val.str c := by
  have h := getCell_append_right
    ((idColsOf sales).map (fun ic => getCell s (firstIdx sales.cols ic)))
    [Val.str c, getCell s (firstIdx sales.cols c)] 0
  simpa [mkMeltRow, getCell] using h

theorem mkMeltRow_salesCell (sales : DataFrame) (c : String) (s : List Val) :
    getCell (mkMeltRow sales c s) ((idColsOf sales).length + 1) =
      getCell s (firstIdx sales.cols c) := by
  have h := getCell_append_right
    ((idColsOf sales).map (fun ic => getCell s (firstIdx sales.cols ic)))
    [Val.str c, getCell s (firstIdx sales.cols c)] 1
  simpa [mkMeltRow, getCell] using h

theorem mkMeltRow_idCell (sales : DataFrame) (c : String) (s : List Val) {ic : String}
    (h : ic ∈ idColsOf sales) :
    getCell (mkMeltRow sales c s) (firstIdx (idColsOf sales) ic) =
      getCell s (firstIdx sales.cols ic) := by
  unfold mkMeltRow
  rw [getCell_append_lt (by simpa using firstIdx_lt_length h)]
  rw [getCell_map (firstIdx_lt_length h) ic]
  rw [getD_firstIdx ic h]

theorem meltStep_rows_length (sales : DataFrame) :
    (meltStep sales).rows.length = (dayColsOf sales).length * sales.rows.length := by
  unfold meltStep
  rw [List.length_flatMap]
  have he : (List.map (List.length ∘ fun c => List.map (mkMeltRow sales c) sales.rows)
        (dayColsOf sales))
      = (dayColsOf sales).map (fun _ => sales.rows.length) := by
    refine List.map_congr_left ?_
    intro c _
    simp [Function.comp]
  rw [he, List.map_const', List.sum_replicate, smul_eq_mul]

theorem mem_meltStep_rows {sales : DataFrame} {m : List Val}
    (hm : m ∈ (meltStep sales).rows) :
    ∃ c ∈ dayColsOf sales, ∃ s ∈ sales.rows, m = mkMeltRow sales c s := by
  rcases List.mem_flatMap.mp hm with ⟨c, hc, hmc⟩
  rcases List.mem_map.mp hmc with ⟨s, hs, he⟩
  exact ⟨c, hc, s, hs, he.symm⟩

theorem mergeStep_eq (melted : DataFrame) {calendar : DataFrame} {di ti : Nat}
    (hd : firstIdx? calendar.cols "d" = some di)
    (ht : firstIdx? calendar.cols "date" = some ti) :
    mergeStep melted calendar = .ok
      ⟨melted.cols ++ ["date"],
        melted.rows.flatMap (expandRow calendar di ti (firstIdx melted.cols "d"))⟩ := by
  unfold mergeStep
  rw [hd, ht]

theorem expandRow_length_one {calendar : DataFrame} {di ti dIdx : Nat} {r : List Val}
    (h : (calendar.rows.filter
        (fun cr => decide (getCell cr di = getCell r dIdx))).length ≤ 1) :
    (expandRow calendar di ti dIdx r).length = 1 := by
  unfold expandRow
  cases hf : calendar.rows.filter (fun cr => decide (getCell cr di = getCell r dIdx)) with
  | nil => simp
  | cons a t =>
    rw [hf] at h
    have ht : t = [] := by
      have : t.length = 0 := by
        have := h
        simp only [List.length_cons] at this
        omega
      exact List.eq_nil_of_length_eq_zero this
    subst ht
    simp

theorem expandRow_mem {calendar : DataFrame} {di ti dIdx : Nat} {r m : List Val}
    (hm : m ∈ expandRow calendar di ti dIdx r) :
    ∃ w, m = r ++ [w] ∧
      (((calendar.rows.filter
            (fun cr => decide (getCell cr di = getCell r dIdx))).isEmpty = true ∧
          w = Val.na) ∨
        ∃ cr ∈ calendar.rows.filter (fun cr => decide (getCell cr di = getCell r dIdx)),
          w = getCell cr ti) := by
  unfold expandRow at hm
  split at hm
  · refine ⟨Val.na, by simpa using hm, Or.inl ⟨by assumption, rfl⟩⟩
  · rcases List.mem_map.mp hm with ⟨cr, hcr, he⟩
    exact ⟨getCell cr ti, he.symm, Or.inr ⟨cr, hcr, rfl⟩⟩

theorem sortStep_eq (df : DataFrame) {i j : Nat}
    (hi : firstIdx? df.cols "item_id" = some i)
    (hj : firstIdx? df.cols "date" = some j) :
    sortStep df = .ok ⟨df.cols, df.rows.insertionSort (rowLe i j)⟩ := by
  unfold sortStep
  rw [hi, hj]

theorem melt_sales_data_eq {sales calendar merged out : DataFrame}
    (hm : mergeStep (meltStep sales) calendar = .ok merged)
    (hs : sortStep merged = .ok out) :
    melt_sales_data sales calendar = .ok out := by
  unfold melt_sales_data
  rw [hm]
  exact hs

theorem melt_ok_elim {sales calendar out : DataFrame}
    (h : melt_sales_data sales calendar = .ok out) :
    ∃ merged, mergeStep (meltStep sales) calendar = .ok merged ∧
      sortStep merged = .ok out := by
  unfold melt_sales_data at h
  cases hm : mergeStep (meltStep sales) calendar with
  | error e =>
    rw [hm] at h
    simp [Bind.bind, Except.bind] at h
  | ok merged =>
    rw [hm] at h
    exact ⟨merged, rfl, h⟩

/-! Lemmas about column reads after column assignment. -/

theorem getCell_set_self {r : List Val} {i : Nat} (h : i < r.length) (v : Val) :
    getCell (r.set i v) i = v := by
  induction r generalizing i with
  | nil => simp at h
  | cons x xs ih =>
    cases i with
    | zero => simp [getCell]
    | succ k => simpa [getCell] using ih (Nat.lt_of_succ_lt_succ h)

theorem getCell_set_ne {r : List Val} {i j : Nat} (h : j ≠ i) (v : Val) :
    getCell (r.set i v) j = getCell r j := by
  induction r generalizing i j with
  | nil => simp [getCell]
  | cons x xs ih =>
    cases i with
    | zero =>
      cases j with
      | zero => exact absurd rfl h
      | succ k => simp [getCell]
    | succ m =>
      cases j with
      | zero => simp [getCell]
      | succ k =>
        have hki : k ≠ m := fun he => h (by rw [he])
        simpa [getCell] using ih hki

theorem firstIdx?_some_mem [DecidableEq α] {l : List α} {a : α} {i : Nat}
    (h : firstIdx? l a = some i) : a ∈ l := by
  by_contra hc
  rw [firstIdx?_eq_none_iff.mpr hc] at h
  exact Option.noConfusion h

theorem firstIdx?_some_eq [DecidableEq α] {l : List α} {a : α} {i : Nat}
    (h : firstIdx? l a = some i) : i = firstIdx l a := by
  have h2 := firstIdx?_eq_some_firstIdx (firstIdx?_some_mem h)
  rw [h] at h2
  exact Option.some.inj h2

theorem firstIdx?_some_lt [DecidableEq α] {l : List α} {a : α} {i : Nat}
    (h : firstIdx? l a = some i) : i < l.length := by
  rw [firstIdx?_some_eq h]
  exact firstIdx_lt_length (firstIdx?_some_mem h)

theorem getD_firstIdx? [DecidableEq α] (d : α) {l : List α} {a : α} {i : Nat}
    (h : firstIdx? l a = some i) : l.getD i d = a := by
  rw [firstIdx?_some_eq h]
  exact getD_firstIdx d (firstIdx?_some_mem h)

theorem mem_zipWith {α β γ : Type} {f : α → β → γ} {l1 : List α} {l2 : List β} {c : γ}
    (h : c ∈ List.zipWith f l1 l2) : ∃ a ∈ l1, ∃ b ∈ l2, c = f a b := by
  induction l1 generalizing l2 with
  | nil => simp at h
  | cons x xs ih =>
    cases l2 with
    | nil => simp at h
    | cons y ys =>
      rcases List.mem_cons.mp h with h' | h'
      · exact ⟨x, List.mem_cons_self x xs, y, List.mem_cons_self y ys, h'⟩
      · rcases ih h' with ⟨a, ha, b, hb, he⟩
        exact ⟨a, List.mem_cons_of_mem _ ha, b, List.mem_cons_of_mem _ hb, he⟩

theorem setCol_rows_length {df : DataFrame} {vals : List Val}
    (hlen : vals.length = df.rows.length) (c : String) :
    (setCol df c vals).rows.length = df.rows.length := by
  unfold setCol
  cases firstIdx? df.cols c <;> simp [List.length_zipWith, hlen]

theorem setCol_WF {df : DataFrame} {vals : List Val} (hwf : WF df)
    (_hlen : vals.length = df.rows.length) (c : String) : WF (setCol df c vals) := by
  unfold setCol WF
  cases hidx : firstIdx? df.cols c with
  | some i =>
    intro r hr
    rcases mem_zipWith hr with ⟨a, ha, b, _, he⟩
    simpa [he] using hwf a ha
  | none =>
    intro r hr
    rcases mem_zipWith hr with ⟨a, ha, b, _, he⟩
    simpa [he] using hwf a ha

theorem map_getCell_zipWith_set {rows : List (List Val)} {vals : List Val} {i : Nat}
    (hlen : vals.length = rows.length) (hwf : ∀ r ∈ rows, i < r.length) :
    (List.zipWith (fun r v => r.set i v) rows vals).map (fun r => getCell r i) = vals := by
  induction rows generalizing vals with
  | nil =>
    cases vals with
    | nil => rfl
    | cons v vs => simp at hlen
  | cons r rs ih =>
    cases vals with
    | nil => simp at hlen
    | cons v vs =>
      simp only [List.zipWith_cons_cons, List.map_cons]
      rw [getCell_set_self (hwf r (List.mem_cons_self r rs)) v]
      rw [ih (by simpa using hlen) (fun q hq => hwf q (List.mem_cons_of_mem _ hq))]

theorem map_getCell_zipWith_set_ne {rows : List (List Val)} {vals : List Val} {i j : Nat}
    (hij : j ≠ i) (hlen : vals.length = rows.length) :
    (List.zipWith (fun r v => r.set i v) rows vals).map (fun r => getCell r j) =
      rows.map (fun r => getCell r j) := by
  induction rows generalizing vals with
  | nil => simp
  | cons r rs ih =>
    cases vals with
    | nil => simp at hlen
    | cons v vs =>
      simp only [List.zipWith_cons_cons, List.map_cons]
      rw [getCell_set_ne hij v, ih (by simpa using hlen)]

theorem map_getCell_zipWith_append_self {rows : List (List Val)} {vals : List Val}
    {n : Nat} (hlen : vals.length = rows.length) (hwf : ∀ r ∈ rows, r.length = n) :
    (List.zipWith (fun r v => r ++ [v]) rows vals).map (fun r => getCell r n) = vals := by
  induction rows generalizing vals with
  | nil =>
    cases vals with
    | nil => rfl
    | cons v vs => simp at hlen
  | cons r rs ih =>
    cases vals with
    | nil => simp at hlen
    | cons v vs =>
      simp only [List.zipWith_cons_cons, List.map_cons]
      have hr : r.length = n := hwf r (List.mem_cons_self r rs)
      have : getCell (r ++ [v]) n = v := by
        have h0 := getCell_append_right r [v] 0
        rw [hr] at h0
        simpa [getCell] using h0
      rw [this, ih (by simpa using hlen) (fun q hq => hwf q (List.mem_cons_of_mem _ hq))]

theorem map_getCell_zipWith_append_lt {rows : List (List Val)} {vals : List Val}
    {j : Nat} (hlen : vals.length = rows.length) (hwf : ∀ r ∈ rows, j < r.length) :
    (List.zipWith (fun r v => r ++ [v]) rows vals).map (fun r => getCell r j) =
      rows.map (fun r => getCell r j) := by
  induction rows generalizing vals with
  | nil => simp
  | cons r rs ih =>
    cases vals with
    | nil => simp at hlen
    | cons v vs =>
      simp only [List.zipWith_cons_cons, List.map_cons]
      rw [getCell_append_lt (hwf r (List.mem_cons_self r rs))]
      rw [ih (by simpa using hlen) (fun q hq => hwf q (List.mem_cons_of_mem _ hq))]

theorem getColumn_ok_length {df : DataFrame} {c : String} {col : List Val}
    (h : getColumn df c = .ok col) : col.length = df.rows.length := by
  unfold getColumn at h
  cases hidx : firstIdx? df.cols c with
  | some i =>
    rw [hidx] at h
    simp only [Except.ok.injEq] at h
    rw [← h]
    exact List.length_map _ _
  | none =>
    rw [hidx] at h
    exact Except.noConfusion h

theorem getColumn_setCol_self {df : DataFrame} {vals : List Val} (hwf : WF df)
    (hlen : vals.length = df.rows.length) (c : String) :
    getColumn (setCol df c vals) c = .ok vals := by
  unfold setCol
  cases hidx : firstIdx? df.cols c with
  | some i =>
    have hi : i < df.cols.length := firstIdx?_some_lt hidx
    unfold getColumn
    simp only [hidx]
    rw [map_getCell_zipWith_set hlen (fun r hr => by rw [hwf r hr]; exact hi)]
  | none =>
    have hnm : c ∉ df.cols := firstIdx?_eq_none_iff.mp hidx
    unfold getColumn
    rw [firstIdx?_append_right hnm [c]]
    have h0 : firstIdx? [c] c = some 0 := by simp [firstIdx?]
    rw [h0]
    simp only [Option.map_some', Nat.zero_add]
    rw [map_getCell_zipWith_append_self hlen (fun r hr => hwf r hr)]

theorem getColumn_setCol_ne {df : DataFrame} {vals : List Val} (hwf : WF df)
    (hlen : vals.length = df.rows.length) {c c' : String} (hne : c' ≠ c) :
    getColumn (setCol df c vals) c' = getColumn df c' := by
  unfold setCol
  cases hidx : firstIdx? df.cols c with
  | some i =>
    unfold getColumn
    cases hidx2 : firstIdx? df.cols c' with
    | some j =>
      have hij : j ≠ i := by
        intro he
        have h1 : df.cols.getD j "" = c' := getD_firstIdx? "" hidx2
        have h2 : df.cols.getD i "" = c := getD_firstIdx? "" hidx
        rw [he, h2] at h1
        exact hne h1.symm
      dsimp only
      rw [map_getCell_zipWith_set_ne hij hlen]
    | none => rfl
  | none =>
    unfold getColumn
    by_cases hc' : c' ∈ df.cols
    · rw [firstIdx?_append_left hc' [c], firstIdx?_eq_some_firstIdx hc']
      dsimp only
      rw [map_getCell_zipWith_append_lt hlen
        (fun r hr => by rw [hwf r hr]; exact firstIdx_lt_length hc')]
    · have : c' ∉ df.cols ++ [c] := by
        intro hm
        rcases List.mem_append.mp hm with h | h
        · exact hc' h
        · exact hne (List.mem_singleton.mp h)
      rw [firstIdx?_eq_none_iff.mpr this, firstIdx?_eq_none_iff.mpr hc']

theorem to_datetime_col_ok_length {l : List Val} {ds : List Date}
    (h : to_datetime_col l = .ok ds) : ds.length = l.length := by
  induction l generalizing ds with
  | nil =>
    unfold to_datetime_col at h
    simp only [Except.ok.injEq] at h
    rw [← h]
    rfl
  | cons v vs ih =>
    unfold to_datetime_col at h
    cases hv : to_datetime v with
    | error e =>
      rw [hv] at h
      simp [Bind.bind, Except.bind] at h
    | ok d =>
      rw [hv] at h
      cases hvs : to_datetime_col vs with
      | error e =>
        rw [hvs] at h
        simp [Bind.bind, Except.bind] at h
      | ok ds' =>
        rw [hvs] at h
        simp only [Bind.bind, Except.bind, Except.ok.injEq] at h
        rw [← h]
        simpa using ih hvs

/-! Claim theorems. -/

/-- Claim C7: load_all_data performs the four reads in program order and
fails fast: a failure of any one read is the result of the whole call — the
error of the first failing load — and no table collection is produced. -/
theorem load_all_data_fail_fast (fs : FS) (dataDir : String) (validation : Bool) :
    (∀ e, load_calendar fs dataDir = .error e →
      load_all_data fs dataDir validation = .error e) ∧
    (∀ cal e, load_calendar fs dataDir = .ok cal →
      load_sales_data fs dataDir validation = .error e →
      load_all_data fs dataDir validation = .error e) ∧
    (∀ cal sal e, load_calendar fs dataDir = .ok cal →
      load_sales_data fs dataDir validation = .ok sal →
      load_prices fs dataDir = .error e →
      load_all_data fs dataDir validation = .error e) ∧
    (∀ cal sal pr e, load_calendar fs dataDir = .ok cal →
      load_sales_data fs dataDir validation = .ok sal →
      load_prices fs dataDir = .ok pr →
      load_sample_submission fs dataDir = .error e →
      load_all_data fs dataDir validation = .error e) := by
  refine ⟨?_, ?_, ?_, ?_⟩
  · intro e h
    unfold load_all_data
    rw [h]
    rfl
  · intro cal e h1 h2
    unfold load_all_data
    rw [h1, h2]
    rfl
  · intro cal sal e h1 h2 h3
    unfold load_all_data
    rw [h1, h2, h3]
    rfl
  · intro cal sal pr e h1 h2 h3 h4
    unfold load_all_data
    rw [h1, h2, h3, h4]
    rfl

/-- Witness for C7: a directory with an unreadable prices file makes the
whole load_all_data call fail with that file's error. -/
theorem load_all_data_fail_fast_witness :
    load_prices exFSNoPrices "data" =
        .error "FileNotFoundError: data/sell_prices.csv" ∧
      load_all_data exFSNoPrices "data" true =
        .error "FileNotFoundError: data/sell_prices.csv" :=
  ⟨by decide,
    (load_all_data_fail_fast exFSNoPrices "data" true).2.2.1 exLoadedCalendar
      exSalesFull "FileNotFoundError: data/sell_prices.csv"
      (by decide) (by decide) (by decide)⟩

/-- One derivation step over a frame of known row count: well-formedness and
the row count are preserved by a column assignment of matching length. -/
theorem setCol_step {df : DataFrame} {n : Nat} (hwf : WF df) (hrows : df.rows.length = n)
    {vals : List Val} (hv : vals.length = n) (c : String) :
    WF (setCol df c vals) ∧ (setCol df c vals).rows.length = n := by
  have hlen : vals.length = df.rows.length := by rw [hv, hrows]
  exact ⟨setCol_WF hwf hlen c, by rw [setCol_rows_length hlen c, hrows]⟩

/-- The derived calendar is well formed, keeps the row count, and its
dayofweek column holds exactly the day-of-week of each parsed date. -/
theorem deriveCalendarCols_facts {calendar : DataFrame} {dates : List Date}
    (hwf : WF calendar) (hlen : dates.length = calendar.rows.length) :
    WF (deriveCalendarCols calendar dates) ∧
      (deriveCalendarCols calendar dates).rows.length = calendar.rows.length ∧
      getColumn (deriveCalendarCols calendar dates) "dayofweek" =
        .ok (dates.map (fun d => Val.int (dayofweekOf d))) := by
  have hd1 := setCol_step hwf rfl
    (show (dates.map Val.date).length = calendar.rows.length by simpa using hlen) "date"
  have hd2 := setCol_step hd1.1 hd1.2
    (show (dates.map (fun d => Val.int d.year)).length = calendar.rows.length
      by simpa using hlen) "year"
  have hd3 := setCol_step hd2.1 hd2.2
    (show (dates.map (fun d => Val.int d.month)).length = calendar.rows.length
      by simpa using hlen) "month"
  have hd4 := setCol_step hd3.1 hd3.2
    (show (dates.map (fun d => Val.int d.day)).length = calendar.rows.length
      by simpa using hlen) "day"
  have hd5 := setCol_step hd4.1 hd4.2
    (show (dates.map (fun d => Val.int (dayofweekOf d))).length = calendar.rows.length
      by simpa using hlen) "dayofweek"
  have hd6 := setCol_step hd5.1 hd5.2
    (show (dates.map (fun d => Val.int (quarterOf d))).length = calendar.rows.length
      by simpa using hlen) "quarter"
  refine ⟨hd6.1, hd6.2, ?_⟩
  unfold deriveCalendarCols
  rw [getColumn_setCol_ne hd5.1 (by rw [List.length_map, hd5.2]; exact hlen) (by decide)]
  exact getColumn_setCol_self hd4.1 (by rw [List.length_map, hd4.2]; exact hlen) "dayofweek"

/-- The membership test behind the weekend flag: isin([5,6]).astype(int) is
1 exactly on the day-of-week values 5 and 6, and is always 0 or 1. -/
theorem isinInt_56 (v : Val) :
    (isinInt [5, 6] v = Val.int 1 ↔ v = Val.int 5 ∨ v = Val.int 6) ∧
      (isinInt [5, 6] v = Val.int 0 ∨ isinInt [5, 6] v = Val.int 1) := by
  cases v with
  | int n =>
    by_cases hn : n ∈ ([5, 6] : List Int)
    · have hor : n = 5 ∨ n = 6 := by simpa using hn
      simp [isinInt, hn, hor]
    · have hor : ¬(n = 5 ∨ n = 6) := by simpa using hn
      simp [isinInt, hn, hor]
  | str s => simp [isinInt]
  | date d => simp [isinInt]
  | na => simp [isinInt]

/-- Claim C3: for every valid calendar input, the is_weekend flag written by
load_calendar is the 0/1 image of the derived dayofweek column under
isin([5,6]), and that flag equals 1 exactly when the derived day-of-week
(0 = Monday) is 5 or 6, Saturday or Sunday. -/
theorem load_calendar_weekend_iff (fs : FS) (dataDir : String)
    (raw cal : DataFrame)
    (hraw : fs (getFilePath dataDir "calendar.csv") = some raw) (hwf : WF raw)
    (h : load_calendar fs dataDir = .ok cal) :
    ∃ dates : List Date,
      getColumn cal "dayofweek" = .ok (dates.map (fun d => Val.int (dayofweekOf d))) ∧
      getColumn cal "is_weekend" =
        .ok ((dates.map (fun d => Val.int (dayofweekOf d))).map (isinInt [5, 6])) ∧
      ∀ v : Val, (isinInt [5, 6] v = Val.int 1 ↔ v = Val.int 5 ∨ v = Val.int 6) ∧
        (isinInt [5, 6] v = Val.int 0 ∨ isinInt [5, 6] v = Val.int 1) := by
  unfold load_calendar read_csv at h
  rw [hraw] at h
  simp only [Bind.bind, Except.bind] at h
  cases hdc : getColumn raw "date" with
  | error e =>
    rw [hdc] at h
    exact Except.noConfusion h
  | ok dateCol =>
    rw [hdc] at h
    dsimp only at h
    cases hdt : to_datetime_col dateCol with
    | error e =>
      rw [hdt] at h
      exact Except.noConfusion h
    | ok dates =>
      rw [hdt] at h
      dsimp only at h
      have hlen : dates.length = raw.rows.length := by
        rw [to_datetime_col_ok_length hdt, getColumn_ok_length hdc]
      obtain ⟨hwf6, hrows6, hdow6⟩ := deriveCalendarCols_facts hwf hlen
      rw [hdow6] at h
      simp only [Except.ok.injEq] at h
      subst h
      refine ⟨dates, ?_, ?_, fun v => isinInt_56 v⟩
      · rw [getColumn_setCol_ne hwf6 (by simp [hrows6]; exact hlen) (by decide)]
        exact hdow6
      · exact getColumn_setCol_self hwf6 (by simp [hrows6]; exact hlen) "is_weekend"

/-- Witness for C3 at a concrete calendar file. -/
theorem load_calendar_weekend_iff_witness :
    exFS (getFilePath "data" "calendar.csv") = some exRawCalendar ∧ WF exRawCalendar ∧
      load_calendar exFS "data" = .ok exLoadedCalendar ∧
      (∃ dates : List Date,
        getColumn exLoadedCalendar "dayofweek" =
          .ok (dates.map (fun d => Val.int (dayofweekOf d))) ∧
        getColumn exLoadedCalendar "is_weekend" =
          .ok ((dates.map (fun d => Val.int (dayofweekOf d))).map (isinInt [5, 6])) ∧
        ∀ v : Val, (isinInt [5, 6] v = Val.int 1 ↔ v = Val.int 5 ∨ v = Val.int 6) ∧
          (isinInt [5, 6] v = Val.int 0 ∨ isinInt [5, 6] v = Val.int 1)) :=
  ⟨by decide, by unfold WF; decide, by decide,
    load_calendar_weekend_iff exFS "data" exRawCalendar exLoadedCalendar
      (by decide) (by unfold WF; decide) (by decide)⟩

/-- Claim C9: the loader is deterministic — two calls over the same
unchanged file system return structurally identical table collections
(same shapes, same columns, same values). -/
theorem load_all_data_deterministic (fs1 fs2 : FS) (dataDir : String)
    (validation : Bool) (h : fs1 = fs2) :
    load_all_data fs1 dataDir validation = load_all_data fs2 dataDir validation := by
  rw [h]

/-- Witness for C9 at a concrete file system. -/
theorem load_all_data_deterministic_witness :
    exFS = exFS ∧
      load_all_data exFS "data" true = load_all_data exFS "data" true :=
  ⟨rfl, load_all_data_deterministic exFS exFS "data" true rfl⟩

theorem getColumn_of_mem {df : DataFrame} {c : String} (h : c ∈ df.cols) :
    getColumn df c = .ok (df.rows.map (fun r => getCell r (firstIdx df.cols c))) := by
  unfold getColumn
  rw [firstIdx?_eq_some_firstIdx h]

theorem getColumn_ok_mem {df : DataFrame} {c : String} {col : List Val}
    (h : getColumn df c = .ok col) : c ∈ df.cols := by
  unfold getColumn at h
  cases hidx : firstIdx? df.cols c with
  | some i => exact firstIdx?_some_mem hidx
  | none =>
    rw [hidx] at h
    exact Except.noConfusion h

theorem uniqueFirst_firstAppearance (col : List Val) :
    firstAppearanceList (uniqueFirst col) col :=
  ⟨nodup_uniqueFirst col, fun _ => mem_uniqueFirst, pairwise_firstIdx_uniqueFirst col⟩

/-- Claim C10: create_hierarchical_structure fails with a KeyError-style
missing-column error when any of the five identifier columns is absent; when
all five are present it succeeds, and each of its five distinct-value lists
enumerates its column's values in order of first appearance. -/
theorem create_hierarchy_columns (sales : DataFrame) :
    ((¬("state_id" ∈ sales.cols ∧ "store_id" ∈ sales.cols ∧ "cat_id" ∈ sales.cols ∧
          "dept_id" ∈ sales.cols ∧ "item_id" ∈ sales.cols)) →
        ∃ e, create_hierarchical_structure sales = .error e) ∧
      (("state_id" ∈ sales.cols ∧ "store_id" ∈ sales.cols ∧ "cat_id" ∈ sales.cols ∧
          "dept_id" ∈ sales.cols ∧ "item_id" ∈ sales.cols) →
        ∃ hier, create_hierarchical_structure sales = .ok hier ∧
          (∃ col, getColumn sales "state_id" = .ok col ∧
            firstAppearanceList hier.states col) ∧
          (∃ col, getColumn sales "store_id" = .ok col ∧
            firstAppearanceList hier.stores col) ∧
          (∃ col, getColumn sales "cat_id" = .ok col ∧
            firstAppearanceList hier.categories col) ∧
          (∃ col, getColumn sales "dept_id" = .ok col ∧
            firstAppearanceList hier.departments col) ∧
          (∃ col, getColumn sales "item_id" = .ok col ∧
            firstAppearanceList hier.items col)) := by
  constructor
  · intro hn
    cases hc : create_hierarchical_structure sales with
    | error e => exact ⟨e, rfl⟩
    | ok hier =>
      exfalso
      apply hn
      unfold create_hierarchical_structure at hc
      simp only [Bind.bind, Except.bind] at hc
      cases h1 : getColumn sales "state_id" with
      | error e =>
        rw [h1] at hc
        exact Except.noConfusion hc
      | ok col1 =>
      rw [h1] at hc
      dsimp only at hc
      cases h2 : getColumn sales "store_id" with
      | error e =>
        rw [h2] at hc
        exact Except.noConfusion hc
      | ok col2 =>
      rw [h2] at hc
      dsimp only at hc
      cases h3 : getColumn sales "cat_id" with
      | error e =>
        rw [h3] at hc
        exact Except.noConfusion hc
      | ok col3 =>
      rw [h3] at hc
      dsimp only at hc
      cases h4 : getColumn sales "dept_id" with
      | error e =>
        rw [h4] at hc
        exact Except.noConfusion hc
      | ok col4 =>
      rw [h4] at hc
      dsimp only at hc
      cases h5 : getColumn sales "item_id" with
      | error e =>
        rw [h5] at hc
        exact Except.noConfusion hc
      | ok col5 =>
      exact ⟨getColumn_ok_mem h1, getColumn_ok_mem h2, getColumn_ok_mem h3,
        getColumn_ok_mem h4, getColumn_ok_mem h5⟩
  · rintro ⟨h1, h2, h3, h4, h5⟩
    unfold create_hierarchical_structure
    rw [getColumn_of_mem h1, getColumn_of_mem h2, getColumn_of_mem h3,
      getColumn_of_mem h4, getColumn_of_mem h5]
    simp only [Bind.bind, Except.bind]
    exact ⟨_, rfl,
      ⟨_, rfl, uniqueFirst_firstAppearance _⟩,
      ⟨_, rfl, uniqueFirst_firstAppearance _⟩,
      ⟨_, rfl, uniqueFirst_firstAppearance _⟩,
      ⟨_, rfl, uniqueFirst_firstAppearance _⟩,
      ⟨_, rfl, uniqueFirst_firstAppearance _⟩⟩

/-- Witness for C10: a frame without state_id fails; a full frame succeeds
with first-appearance distinct lists. -/
theorem create_hierarchy_columns_witness :
    (∃ e, create_hierarchical_structure exSalesNoState = .error e) ∧
      (∃ hier, create_hierarchical_structure exSalesFlip = .ok hier ∧
        (∃ col, getColumn exSalesFlip "state_id" = .ok col ∧
          firstAppearanceList hier.states col) ∧
        (∃ col, getColumn exSalesFlip "store_id" = .ok col ∧
          firstAppearanceList hier.stores col) ∧
        (∃ col, getColumn exSalesFlip "cat_id" = .ok col ∧
          firstAppearanceList hier.categories col) ∧
        (∃ col, getColumn exSalesFlip "dept_id" = .ok col ∧
          firstAppearanceList hier.departments col) ∧
        (∃ col, getColumn exSalesFlip "item_id" = .ok col ∧
          firstAppearanceList hier.items col)) :=
  ⟨(create_hierarchy_columns exSalesNoState).1 (by decide),
    (create_hierarchy_columns exSalesFlip).2 (by decide)⟩

theorem filter_key_of_nodup_keys [DecidableEq α] {m : List (α × β)}
    (hnd : (m.map Prod.fst).Nodup) {p : α × β} (hp : p ∈ m) :
    m.filter (fun q => decide (q.1 = p.1)) = [p] := by
  induction m with
  | nil => simp at hp
  | cons q m ih =>
    rw [List.map_cons, List.nodup_cons] at hnd
    rcases List.mem_cons.mp hp with h | h
    · subst h
      rw [List.filter_cons_of_pos (by simp)]
      rw [(filter_key_eq_nil_iff m p.1).mpr hnd.1]
    · have hq : q.1 ≠ p.1 := by
        intro he
        exact hnd.1 (he ▸ List.mem_map.mpr ⟨p, h, rfl⟩)
      rw [List.filter_cons_of_neg (by simp [hq])]
      exact ih hnd.2 h

/-- Success of create_hierarchical_structure determines every field from the
five identifier columns. -/
theorem create_ok_elim {sales : DataFrame} {hier : Hierarchy}
    (h : create_hierarchical_structure sales = .ok hier) :
    ∃ stateCol storeCol catCol deptCol itemCol,
      getColumn sales "state_id" = .ok stateCol ∧
      getColumn sales "store_id" = .ok storeCol ∧
      getColumn sales "cat_id" = .ok catCol ∧
      getColumn sales "dept_id" = .ok deptCol ∧
      getColumn sales "item_id" = .ok itemCol ∧
      hier = { states := uniqueFirst stateCol
               stores := uniqueFirst storeCol
               categories := uniqueFirst catCol
               departments := uniqueFirst deptCol
               items := uniqueFirst itemCol
               store_state_mapping := dictOfPairs (uniqueFirst (List.zip storeCol stateCol))
               item_hierarchy :=
                 dictOfPairs (uniqueFirst (List.zip itemCol (List.zip deptCol catCol))) } := by
  unfold create_hierarchical_structure at h
  simp only [Bind.bind, Except.bind] at h
  cases h1 : getColumn sales "state_id" with
  | error e =>
    rw [h1] at h
    exact Except.noConfusion h
  | ok stateCol =>
  rw [h1] at h
  dsimp only at h
  cases h2 : getColumn sales "store_id" with
  | error e =>
    rw [h2] at h
    exact Except.noConfusion h
  | ok storeCol =>
  rw [h2] at h
  dsimp only at h
  cases h3 : getColumn sales "cat_id" with
  | error e =>
    rw [h3] at h
    exact Except.noConfusion h
  | ok catCol =>
  rw [h3] at h
  dsimp only at h
  cases h4 : getColumn sales "dept_id" with
  | error e =>
    rw [h4] at h
    exact Except.noConfusion h
  | ok deptCol =>
  rw [h4] at h
  dsimp only at h
  cases h5 : getColumn sales "item_id" with
  | error e =>
    rw [h5] at h
    exact Except.noConfusion h
  | ok itemCol =>
  rw [h5] at h
  dsimp only at h
  simp only [Except.ok.injEq] at h
  exact ⟨stateCol, storeCol, catCol, deptCol, itemCol, rfl, rfl, rfl, rfl, rfl, h.symm⟩

/-- Counterexample to C6 as stated: in exSalesFlip the store S1 appears with
CA, then TX, then CA again; the last row mentioning S1 carries CA, but the
mapping keeps TX — last-seen-wins over raw rows is violated. -/
theorem store_state_last_seen_cex :
    (create_hierarchical_structure exSalesFlip).map Hierarchy.store_state_mapping =
        .ok [(Val.str "S1", Val.str "TX")] ∧
      (∀ r ∈ exSalesFlip.rows, getCell r 3 = Val.str "S1") ∧
      getCell (exSalesFlip.rows.getD 2 []) 4 = Val.str "CA" ∧
      Val.str "TX" ≠ Val.str "CA" := by decide

/-- Claim C6 (amended): every pair of the store-to-state mapping occurs
together in some sales row; each store keeps exactly one state (no duplicate
keys, and every store of the store column is a key); and the state kept for
a store is that of the last distinct (store, state) pair in order of first
appearance — not the state of the last row mentioning the store. -/
theorem store_state_mapping_spec (sales : DataFrame) (hier : Hierarchy)
    (storeCol stateCol : List Val)
    (h : create_hierarchical_structure sales = .ok hier)
    (hstore : getColumn sales "store_id" = .ok storeCol)
    (hstate : getColumn sales "state_id" = .ok stateCol) :
    (∀ p ∈ hier.store_state_mapping, ∃ r ∈ sales.rows,
        getCell r (firstIdx sales.cols "store_id") = p.1 ∧
        getCell r (firstIdx sales.cols "state_id") = p.2) ∧
      (hier.store_state_mapping.map Prod.fst).Nodup ∧
      (∀ v ∈ storeCol, v ∈ hier.store_state_mapping.map Prod.fst) ∧
      (∀ p ∈ hier.store_state_mapping,
        ((uniqueFirst (List.zip storeCol stateCol)).filter
          (fun q => decide (q.1 = p.1))).getLast? = some p) := by
  rcases create_ok_elim h with
    ⟨stateCol', storeCol', _, _, _, h1, h2, _, _, _, hh⟩
  have hsc : storeCol' = storeCol := by
    rw [hstore] at h2
    exact (Except.ok.inj h2).symm
  have htc : stateCol' = stateCol := by
    rw [hstate] at h1
    exact (Except.ok.inj h1).symm
  rw [hsc, htc] at hh
  subst hh
  have hmapStore : storeCol = sales.rows.map
      (fun r => getCell r (firstIdx sales.cols "store_id")) := by
    rw [getColumn_of_mem (getColumn_ok_mem hstore)] at hstore
    exact (Except.ok.inj hstore).symm
  have hmapState : stateCol = sales.rows.map
      (fun r => getCell r (firstIdx sales.cols "state_id")) := by
    rw [getColumn_of_mem (getColumn_ok_mem hstate)] at hstate
    exact (Except.ok.inj hstate).symm
  have hzip : List.zip storeCol stateCol = sales.rows.map
      (fun r => (getCell r (firstIdx sales.cols "store_id"),
        getCell r (firstIdx sales.cols "state_id"))) := by
    rw [hmapStore, hmapState, List.zip_map']
  refine ⟨?_, ?_, ?_, ?_⟩
  · intro p hp
    have hpz : p ∈ List.zip storeCol stateCol :=
      mem_uniqueFirst.mp (mem_dictOfPairs_sub hp)
    rw [hzip] at hpz
    rcases List.mem_map.mp hpz with ⟨r, hr, he⟩
    exact ⟨r, hr, by rw [← he], by rw [← he]⟩
  · exact dictOfPairs_keys_nodup _
  · intro v hv
    rw [hmapStore] at hv
    rcases List.mem_map.mp hv with ⟨r, hr, he⟩
    apply dictOfPairs_keys_mem
    apply List.mem_map.mpr
    refine ⟨(getCell r (firstIdx sales.cols "store_id"),
      getCell r (firstIdx sales.cols "state_id")), ?_, he⟩
    apply mem_uniqueFirst.mpr
    rw [hzip]
    exact List.mem_map.mpr ⟨r, hr, rfl⟩
  · intro p hp
    rw [← dictOfPairs_filter_key]
    rw [filter_key_of_nodup_keys (dictOfPairs_keys_nodup _) hp]
    rfl

/-- Witness for the amended C6 at the flip example. -/
theorem store_state_mapping_spec_witness :
    create_hierarchical_structure exSalesFlip = .ok exHierFlip ∧
      ((∀ p ∈ exHierFlip.store_state_mapping, ∃ r ∈ exSalesFlip.rows,
          getCell r (firstIdx exSalesFlip.cols "store_id") = p.1 ∧
          getCell r (firstIdx exSalesFlip.cols "state_id") = p.2) ∧
        (exHierFlip.store_state_mapping.map Prod.fst).Nodup ∧
        (∀ v ∈ [Val.str "S1", Val.str "S1", Val.str "S1"],
          v ∈ exHierFlip.store_state_mapping.map Prod.fst) ∧
        (∀ p ∈ exHierFlip.store_state_mapping,
          ((uniqueFirst (List.zip [Val.str "S1", Val.str "S1", Val.str "S1"]
              [Val.str "CA", Val.str "TX", Val.str "CA"])).filter
            (fun q => decide (q.1 = p.1))).getLast? = some p)) :=
  ⟨by decide,
    store_state_mapping_spec exSalesFlip exHierFlip
      [Val.str "S1", Val.str "S1", Val.str "S1"]
      [Val.str "CA", Val.str "TX", Val.str "CA"]
      (by decide) (by decide) (by decide)⟩

theorem firstIdx_append_right [DecidableEq α] {l1 : List α} {a : α} (h : a ∉ l1)
    (l2 : List α) : firstIdx (l1 ++ l2) a = l1.length + firstIdx l2 a := by
  induction l1 with
  | nil => simp
  | cons x xs ih =>
    have hx : a ≠ x := fun hh => h (by simp [hh])
    have hxs : a ∉ xs := fun hh => h (by simp [hh])
    rw [List.cons_append]
    show (if a = x then 0 else firstIdx (xs ++ l2) a + 1) = (x :: xs).length + firstIdx l2 a
    rw [if_neg hx, ih hxs, List.length_cons]
    omega

theorem melted_dIdx {sales : DataFrame} (hd : "d" ∉ idColsOf sales) :
    firstIdx (meltStep sales).cols "d" = (idColsOf sales).length := by
  show firstIdx (idColsOf sales ++ ["d", "sales"]) "d" = (idColsOf sales).length
  rw [firstIdx_append_right hd]
  simp [firstIdx]

theorem sortStep_ok_elim {df out : DataFrame} (h : sortStep df = .ok out) :
    ∃ i j, firstIdx? df.cols "item_id" = some i ∧ firstIdx? df.cols "date" = some j ∧
      out = ⟨df.cols, df.rows.insertionSort (rowLe i j)⟩ := by
  unfold sortStep at h
  cases hi : firstIdx? df.cols "item_id" with
  | none =>
    rw [hi] at h
    dsimp only at h
    exact Except.noConfusion h
  | some i =>
    rw [hi] at h
    cases hj : firstIdx? df.cols "date" with
    | none =>
      rw [hj] at h
      dsimp only at h
      exact Except.noConfusion h
    | some j =>
      rw [hj] at h
      dsimp only at h
      exact ⟨i, j, rfl, rfl, (Except.ok.inj h).symm⟩

theorem length_flatMap_singleton {α β : Type} {l : List α} {f : α → List β}
    (h : ∀ x ∈ l, (f x).length = 1) : (l.flatMap f).length = l.length := by
  induction l with
  | nil => rfl
  | cons x xs ih =>
    rw [List.flatMap_cons, List.length_append, h x (List.mem_cons_self x xs),
      ih (fun y hy => h y (List.mem_cons_of_mem _ hy)), List.length_cons]
    omega

/-- Claim C5: the calendar join is a left join and cannot raise on unmatched
day keys: whenever the sales frame has an item_id identifier column (and no
identifier named d) and the calendar has its d and date columns,
melt_sales_data succeeds, and every output row whose day key matches no
calendar row keeps a missing date. -/
theorem melt_left_join_total (sales calendar : DataFrame) (di ti : Nat)
    (hitem : "item_id" ∈ idColsOf sales) (hdcol : "d" ∉ idColsOf sales)
    (hd : firstIdx? calendar.cols "d" = some di)
    (ht : firstIdx? calendar.cols "date" = some ti) :
    ∃ out, melt_sales_data sales calendar = .ok out ∧
      ∀ r ∈ out.rows,
        (calendar.rows.filter (fun cr =>
            decide (getCell cr di = getCell r (idColsOf sales).length))).isEmpty = true →
        getCell r ((idColsOf sales).length + 2) = Val.na := by
  have hmerge := mergeStep_eq (meltStep sales) hd ht
  have hitemMem : "item_id" ∈ (meltStep sales).cols ++ ["date"] := by
    apply List.mem_append_left
    exact List.mem_append_left _ hitem
  have hdateMem : "date" ∈ (meltStep sales).cols ++ ["date"] := by
    apply List.mem_append_right
    simp
  have hsort := sortStep_eq
    ⟨(meltStep sales).cols ++ ["date"],
      (meltStep sales).rows.flatMap
        (expandRow calendar di ti (firstIdx (meltStep sales).cols "d"))⟩
    (firstIdx?_eq_some_firstIdx hitemMem) (firstIdx?_eq_some_firstIdx hdateMem)
  refine ⟨_, melt_sales_data_eq hmerge hsort, ?_⟩
  intro r hr hfilter
  have hrm : r ∈ (meltStep sales).rows.flatMap
      (expandRow calendar di ti (firstIdx (meltStep sales).cols "d")) :=
    (List.mem_insertionSort _).mp hr
  rcases List.mem_flatMap.mp hrm with ⟨m, hmMem, hrExp⟩
  rcases mem_meltStep_rows hmMem with ⟨c, hc, s, hs, hmEq⟩
  rcases expandRow_mem hrExp with ⟨w, hrEq, hcase⟩
  have hmlen : m.length = (idColsOf sales).length + 2 := by
    rw [hmEq]
    exact mkMeltRow_length sales c s
  have hdcell : getCell r (idColsOf sales).length = getCell m (idColsOf sales).length := by
    rw [hrEq]
    exact getCell_append_lt (by rw [hmlen]; omega)
  have hdIdx : firstIdx (meltStep sales).cols "d" = (idColsOf sales).length :=
    melted_dIdx hdcol
  rcases hcase with ⟨hemp, hw⟩ | ⟨cr, hcr, hw⟩
  · rw [hrEq]
    have hget := getCell_append_right m [w] 0
    rw [hmlen, Nat.add_zero] at hget
    rw [hget]
    rw [hw]
    rfl
  · exfalso
    rw [hdIdx] at hcr
    rw [← hdcell] at hcr
    rw [List.isEmpty_iff] at hfilter
    rw [hfilter] at hcr
    exact List.not_mem_nil cr hcr

/-- Witness for C5: a day column d_3 absent from the calendar still melts,
with a missing date on its rows. -/
theorem melt_left_join_total_witness :
    "item_id" ∈ idColsOf exSalesOrphan ∧ "d" ∉ idColsOf exSalesOrphan ∧
      (∃ out, melt_sales_data exSalesOrphan exCalendar = .ok out ∧
        ∀ r ∈ out.rows,
          (exCalendar.rows.filter (fun cr =>
              decide (getCell cr 0 = getCell r (idColsOf exSalesOrphan).length))).isEmpty
            = true →
          getCell r ((idColsOf exSalesOrphan).length + 2) = Val.na) :=
  ⟨by decide, by decide,
    melt_left_join_total exSalesOrphan exCalendar 0 1
      (by decide) (by decide) (by decide) (by decide)⟩

/-- Counterexample to C1 as stated: with a calendar holding the day key d_1
twice, one sales row and one day column melt into two output rows, not one —
the left join duplicates rows on duplicated keys. -/
theorem melt_row_count_cex :
    (melt_sales_data exSalesOne exCalendarDup).map (fun df => df.rows.length) =
        .ok 2 ∧
      exSalesOne.rows.length * (dayColsOf exSalesOne).length = 1 ∧ (2 : Nat) ≠ 1 := by
  decide

/-- Claim C1 (amended): when every day column name matches at most one
calendar row — the spec's calendar invariant of unique d keys — a successful
melt returns exactly (input rows) times (day columns) rows: none dropped,
none duplicated. -/
theorem melt_row_count (sales calendar : DataFrame) (di ti : Nat) (out : DataFrame)
    (hdcol : "d" ∉ idColsOf sales)
    (hd : firstIdx? calendar.cols "d" = some di)
    (ht : firstIdx? calendar.cols "date" = some ti)
    (huniq : ∀ c ∈ dayColsOf sales,
      (calendar.rows.filter (fun cr => decide (getCell cr di = Val.str c))).length ≤ 1)
    (h : melt_sales_data sales calendar = .ok out) :
    out.rows.length = sales.rows.length * (dayColsOf sales).length := by
  rcases melt_ok_elim h with ⟨merged, hm, hs⟩
  have hmEq := mergeStep_eq (meltStep sales) hd ht
  rw [hm] at hmEq
  have hmerged := (Except.ok.inj hmEq)
  rcases sortStep_ok_elim hs with ⟨i, j, _, _, hout⟩
  have hlen1 : out.rows.length = merged.rows.length := by
    rw [hout]
    exact List.length_insertionSort _ _
  have hlen2 : merged.rows.length = (meltStep sales).rows.length := by
    rw [hmerged]
    show ((meltStep sales).rows.flatMap
        (expandRow calendar di ti (firstIdx (meltStep sales).cols "d"))).length =
      (meltStep sales).rows.length
    apply length_flatMap_singleton
    intro m hmMem
    rcases mem_meltStep_rows hmMem with ⟨c, hc, s, hsMem, hmEq2⟩
    apply expandRow_length_one
    have hdIdx : firstIdx (meltStep sales).cols "d" = (idColsOf sales).length :=
      melted_dIdx hdcol
    rw [hdIdx, hmEq2, mkMeltRow_dCell]
    exact huniq c hc
  rw [hlen1, hlen2, meltStep_rows_length, Nat.mul_comm]

/-- Witness for the amended C1: two rows and two day columns melt into four
rows against a calendar with unique day keys. -/
theorem melt_row_count_witness :
    melt_sales_data exSales exCalendar = .ok exMelted ∧
      exMelted.rows.length = exSales.rows.length * (dayColsOf exSales).length :=
  ⟨by decide,
    melt_row_count exSales exCalendar 0 1 exMelted
      (by decide) (by decide) (by decide) (by decide) (by decide)⟩

/-- Claim C2: the final step of a successful melt is a stable ascending sort
on the (item_id, date) key with a fresh 0-based positional index: the output
rows are sorted by that key, and for every key value the output rows
carrying it are exactly the pre-sort merged rows carrying it, in their
original (pre-sort) order; for fixed inputs the result is unique. -/
theorem melt_sorted_stable (sales calendar merged out : DataFrame) (i j : Nat)
    (hm : mergeStep (meltStep sales) calendar = .ok merged)
    (hi : firstIdx? merged.cols "item_id" = some i)
    (hj : firstIdx? merged.cols "date" = some j)
    (h : melt_sales_data sales calendar = .ok out) :
    out.rows.Sorted (rowLe i j) ∧
      (∀ k : Lex (SortKey × SortKey),
        out.rows.filter (fun r => decide (rowKey i j r = k)) =
          merged.rows.filter (fun r => decide (rowKey i j r = k))) ∧
      out.cols = merged.cols := by
  rcases melt_ok_elim h with ⟨merged', hm', hs⟩
  rw [hm] at hm'
  have hme : merged = merged' := Except.ok.inj hm'
  subst hme
  rcases sortStep_ok_elim hs with ⟨i', j', hi', hj', hout⟩
  rw [hi] at hi'
  rw [hj] at hj'
  have hii : i = i' := Option.some.inj hi'
  have hjj : j = j' := Option.some.inj hj'
  subst hii hjj
  subst hout
  refine ⟨List.sorted_insertionSort _ _, ?_, rfl⟩
  intro k
  apply filter_insertionSort
  intro a c ha hc
  have ha' : rowKey i j a = k := by simpa using ha
  have hc' : rowKey i j c = k := by simpa using hc
  show rowKey i j a ≤ rowKey i j c
  rw [ha', hc']

/-- Witness for C2 at the two-item example. -/
theorem melt_sorted_stable_witness :
    mergeStep (meltStep exSales) exCalendar = .ok exMerged ∧
      melt_sales_data exSales exCalendar = .ok exMelted ∧
      (exMelted.rows.Sorted (rowLe 1 4) ∧
        (∀ k : Lex (SortKey × SortKey),
          exMelted.rows.filter (fun r => decide (rowKey 1 4 r = k)) =
            exMerged.rows.filter (fun r => decide (rowKey 1 4 r = k))) ∧
        exMelted.cols = exMerged.cols) :=
  ⟨by decide, by decide,
    melt_sorted_stable exSales exCalendar exMerged exMelted 1 4
      (by decide) (by decide) (by decide) (by decide)⟩

theorem meltRow_ext_dCell (sales : DataFrame) (c : String) (s : List Val) (w : Val) :
    getCell (mkMeltRow sales c s ++ [w]) (idColsOf sales).length = Val.str c := by
  rw [getCell_append_lt (by rw [mkMeltRow_length]; omega)]
  exact mkMeltRow_dCell sales c s

theorem meltRow_ext_itemCell (sales : DataFrame) (c : String) (s : List Val) (w : Val)
    (hitem : "item_id" ∈ idColsOf sales) :
    getCell (mkMeltRow sales c s ++ [w]) (firstIdx (idColsOf sales) "item_id") =
      getCell s (firstIdx sales.cols "item_id") := by
  rw [getCell_append_lt
    (by rw [mkMeltRow_length]; have := firstIdx_lt_length hitem; omega)]
  exact mkMeltRow_idCell sales c s hitem

theorem meltRow_ext_salesCell (sales : DataFrame) (c : String) (s : List Val) (w : Val) :
    getCell (mkMeltRow sales c s ++ [w]) ((idColsOf sales).length + 1) =
      getCell s (firstIdx sales.cols c) := by
  rw [getCell_append_lt (by rw [mkMeltRow_length]; omega)]
  exact mkMeltRow_salesCell sales c s

theorem expandRow_single (calendar : DataFrame) (di ti dIdx : Nat) {m : List Val}
    (h : (calendar.rows.filter
        (fun cr => decide (getCell cr di = getCell m dIdx))).length ≤ 1) :
    ∃ w, expandRow calendar di ti dIdx m = [m ++ [w]] := by
  unfold expandRow
  cases hf : calendar.rows.filter (fun cr => decide (getCell cr di = getCell m dIdx)) with
  | nil => exact ⟨Val.na, by simp⟩
  | cons a t =>
    have ht2 : t = [] := by
      rw [hf, List.length_cons] at h
      exact List.eq_nil_of_length_eq_zero (by omega)
    subst ht2
    exact ⟨getCell a ti, by simp⟩

theorem filter_flatMap_nil {α β : Type} {l : List α} {g : α → List β} {φ : β → Bool}
    (h : ∀ x ∈ l, (g x).filter φ = []) : (l.flatMap g).filter φ = [] := by
  induction l with
  | nil => rfl
  | cons a l ih =>
    rw [List.flatMap_cons, List.filter_append, h a (List.mem_cons_self a l),
      ih (fun x hx => h x (List.mem_cons_of_mem _ hx))]
    rfl

theorem filter_flatMap_single {α β : Type} [DecidableEq α] {l : List α}
    {g : α → List β} {φ : β → Bool} {x0 : α} {v : β}
    (hmem : x0 ∈ l) (hcount : l.count x0 = 1)
    (h0 : (g x0).filter φ = [v])
    (hother : ∀ x ∈ l, x ≠ x0 → (g x).filter φ = []) :
    (l.flatMap g).filter φ = [v] := by
  induction l with
  | nil => simp at hmem
  | cons a l ih =>
    rw [List.flatMap_cons, List.filter_append]
    by_cases hax : a = x0
    · subst hax
      rw [h0]
      have hc0 : l.count a = 0 := by
        rw [List.count_cons_self] at hcount
        omega
      have hnma : a ∉ l := List.count_eq_zero.mp hc0
      rw [filter_flatMap_nil (fun x hx => hother x (List.mem_cons_of_mem _ hx)
        (fun he => hnma (he ▸ hx)))]
      rfl
    · rw [hother a (List.mem_cons_self a l) hax, List.nil_append]
      have hmem' : x0 ∈ l := by
        rcases List.mem_cons.mp hmem with h' | h'
        · exact absurd h'.symm hax
        · exact h'
      have hcount' : l.count x0 = 1 := by
        rw [List.count_cons] at hcount
        simpa [hax] using hcount
      exact ih hmem' hcount' (fun x hx => hother x (List.mem_cons_of_mem _ hx))

theorem sumVals_singleton (v : Val) : sumVals [v] = valToInt v := by
  unfold sumVals
  simp

/-- Counterexample to C4 as stated: one item sold in two stores; grouping
the melted rows by item and day column and summing gives 3, which is neither
of the two original wide cells 1 and 2. -/
theorem melt_roundtrip_cex :
    (melt_sales_data exSalesTwoStores exCalendar).map (fun df =>
        sumVals ((df.rows.filter (groupOf exSalesTwoStores
            [Val.str "A", Val.str "S1", Val.int 1] "d_1")).map
          (fun r => getCell r ((idColsOf exSalesTwoStores).length + 1)))) = .ok 3 ∧
      getCell [Val.str "A", Val.str "S1", Val.int 1]
          (firstIdx exSalesTwoStores.cols "d_1") = Val.int 1 ∧
      getCell [Val.str "A", Val.str "S2", Val.int 2]
          (firstIdx exSalesTwoStores.cols "d_1") = Val.int 2 ∧
      (3 : Int) ≠ 1 ∧ (3 : Int) ≠ 2 := by
  decide

/-- Claim C4 (amended): when the calendar's day keys are unique and each
item identifier occurs in exactly one sales row, the melted sales grouped
back by item and day column are exactly the original wide cell — a single
row per group whose sales value is the cell, so the group sum reproduces
the cell exactly. -/
theorem melt_roundtrip_sum (sales calendar : DataFrame) (di ti : Nat)
    (out : DataFrame)
    (hnd : sales.cols.Nodup)
    (hdcol : "d" ∉ idColsOf sales)
    (hitem : "item_id" ∈ idColsOf sales)
    (hd : firstIdx? calendar.cols "d" = some di)
    (ht : firstIdx? calendar.cols "date" = some ti)
    (huniq : ∀ c' ∈ dayColsOf sales,
      (calendar.rows.filter (fun cr => decide (getCell cr di = Val.str c'))).length ≤ 1)
    (hitems : (sales.rows.map
      (fun r => getCell r (firstIdx sales.cols "item_id"))).Nodup)
    (h : melt_sales_data sales calendar = .ok out)
    {s : List Val} {c : String} (hs : s ∈ sales.rows) (hc : c ∈ dayColsOf sales) :
    (out.rows.filter (groupOf sales s c)).map
        (fun r => getCell r ((idColsOf sales).length + 1)) =
      [getCell s (firstIdx sales.cols c)] ∧
    sumVals ((out.rows.filter (groupOf sales s c)).map
        (fun r => getCell r ((idColsOf sales).length + 1))) =
      valToInt (getCell s (firstIdx sales.cols c)) := by
  rcases melt_ok_elim h with ⟨merged, hm, hsrt⟩
  have hmEq := mergeStep_eq (meltStep sales) hd ht
  rw [hm] at hmEq
  have hmerged := Except.ok.inj hmEq
  rcases sortStep_ok_elim hsrt with ⟨i, j, _, _, hout⟩
  have hperm : out.rows.Perm merged.rows := by
    rw [hout]
    exact List.perm_insertionSort _ _
  have hsingle : ∃ w, merged.rows.filter (groupOf sales s c) =
      [mkMeltRow sales c s ++ [w]] := by
    rw [hmerged]
    show ∃ w, ((meltStep sales).rows.flatMap
        (expandRow calendar di ti (firstIdx (meltStep sales).cols "d"))).filter
        (groupOf sales s c) = [mkMeltRow sales c s ++ [w]]
    rw [melted_dIdx hdcol]
    show ∃ w, (((dayColsOf sales).flatMap
        (fun c' => sales.rows.map (mkMeltRow sales c'))).flatMap
        (expandRow calendar di ti (idColsOf sales).length)).filter
        (groupOf sales s c) = [mkMeltRow sales c s ++ [w]]
    rw [List.flatMap_assoc]
    have hrw : ∀ c' : String, ((sales.rows.map (mkMeltRow sales c')).flatMap
        (expandRow calendar di ti (idColsOf sales).length)) = sales.rows.flatMap
        ((expandRow calendar di ti (idColsOf sales).length) ∘ (mkMeltRow sales c')) :=
      fun c' => List.flatMap_map ..
    simp only [hrw]
    obtain ⟨w, hw⟩ := expandRow_single calendar di ti (idColsOf sales).length
      (m := mkMeltRow sales c s)
      (by rw [mkMeltRow_dCell]; exact huniq c hc)
    refine ⟨w, ?_⟩
    apply filter_flatMap_single hc (List.count_eq_one_of_mem (hnd.filter _) hc)
    · apply filter_flatMap_single hs
        (List.count_eq_one_of_mem (hitems.of_map _) hs)
      · show (expandRow calendar di ti (idColsOf sales).length
            (mkMeltRow sales c s)).filter (groupOf sales s c) = [mkMeltRow sales c s ++ [w]]
        rw [hw]
        rw [List.filter_cons_of_pos ?_]
        · rfl
        · unfold groupOf
          rw [meltRow_ext_itemCell sales c s w hitem, meltRow_ext_dCell sales c s w]
          simp
      · intro s' hs' hne
        apply List.filter_eq_nil_iff.mpr
        intro r' hr'
        rcases expandRow_mem hr' with ⟨w', hr'eq, _⟩
        subst hr'eq
        unfold groupOf
        have hcell := meltRow_ext_itemCell sales c s' w' hitem
        have hdiff : getCell s' (firstIdx sales.cols "item_id") ≠
            getCell s (firstIdx sales.cols "item_id") := by
          intro he
          exact hne (List.inj_on_of_nodup_map hitems hs' hs he)
        simp [hcell, hdiff]
    · intro c' hc' hnec
      apply filter_flatMap_nil
      intro s' hs'
      apply List.filter_eq_nil_iff.mpr
      intro r' hr'
      rcases expandRow_mem hr' with ⟨w', hr'eq, _⟩
      subst hr'eq
      unfold groupOf
      have hcell := meltRow_ext_dCell sales c' s' w'
      have hdiff : Val.str c' ≠ Val.str c := by simpa using hnec
      simp [hcell, hdiff]
  obtain ⟨w, hw⟩ := hsingle
  have hpf : (out.rows.filter (groupOf sales s c)).Perm
      (merged.rows.filter (groupOf sales s c)) := hperm.filter _
  rw [hw] at hpf
  have hfeq : out.rows.filter (groupOf sales s c) = [mkMeltRow sales c s ++ [w]] :=
    List.perm_singleton.mp hpf
  rw [hfeq]
  have hmap : ([mkMeltRow sales c s ++ [w]].map
      (fun r => getCell r ((idColsOf sales).length + 1))) =
      [getCell s (firstIdx sales.cols c)] := by
    rw [List.map_cons, List.map_nil, meltRow_ext_salesCell]
  rw [hmap]
  exact ⟨rfl, sumVals_singleton _⟩

/-- Witness for the amended C4 at the two-item example: the group of item A
and day d_1 holds exactly the original cell 3, and sums to 3. -/
theorem melt_roundtrip_sum_witness :
    melt_sales_data exSales exCalendar = .ok exMelted ∧
      ((exMelted.rows.filter (groupOf exSales
          [Val.str "A1", Val.str "A", Val.int 3, Val.int 7] "d_1")).map
        (fun r => getCell r ((idColsOf exSales).length + 1)) =
        [getCell [Val.str "A1", Val.str "A", Val.int 3, Val.int 7]
          (firstIdx exSales.cols "d_1")] ∧
      sumVals ((exMelted.rows.filter (groupOf exSales
          [Val.str "A1", Val.str "A", Val.int 3, Val.int 7] "d_1")).map
        (fun r => getCell r ((idColsOf exSales).length + 1))) =
        valToInt (getCell [Val.str "A1", Val.str "A", Val.int 3, Val.int 7]
          (firstIdx exSales.cols "d_1"))) :=
  ⟨by decide,
    melt_roundtrip_sum exSales exCalendar 0 1 exMelted
      (by decide) (by decide) (by decide) (by decide) (by decide) (by decide)
      (by decide) (by decide) (by decide) (by decide)⟩

theorem load_all_data_ok_elim {fs : FS} {dataDir : String} {validation : Bool}
    {data : List (String × DataFrame)}
    (h : load_all_data fs dataDir validation = .ok data) :
    ∃ cal sal pr sub, load_calendar fs dataDir = .ok cal ∧
      load_sales_data fs dataDir validation = .ok sal ∧
      load_prices fs dataDir = .ok pr ∧
      load_sample_submission fs dataDir = .ok sub ∧
      data = [("calendar", cal), ("sales", sal), ("prices", pr),
        ("sample_submission", sub)] := by
  unfold load_all_data at h
  simp only [Bind.bind, Except.bind] at h
  cases h1 : load_calendar fs dataDir with
  | error e =>
    rw [h1] at h
    exact Except.noConfusion h
  | ok cal =>
  rw [h1] at h
  dsimp only at h
  cases h2 : load_sales_data fs dataDir validation with
  | error e =>
    rw [h2] at h
    exact Except.noConfusion h
  | ok sal =>
  rw [h2] at h
  dsimp only at h
  cases h3 : load_prices fs dataDir with
  | error e =>
    rw [h3] at h
    exact Except.noConfusion h
  | ok pr =>
  rw [h3] at h
  dsimp only at h
  cases h4 : load_sample_submission fs dataDir with
  | error e =>
    rw [h4] at h
    exact Except.noConfusion h
  | ok sub =>
  rw [h4] at h
  dsimp only at h
  exact ⟨cal, sal, pr, sub, rfl, rfl, rfl, rfl, (Except.ok.inj h).symm⟩

/-- Claim C8: load_and_prepare_data always computes the hierarchy from the
loaded sales table; it performs the costly melt only when the flag is set,
appending the melted table to the collection under sales_melted exactly in
that case; and it returns the table collection and the hierarchy as a pair. -/
theorem load_and_prepare_spec (fs : FS) (dataDir : String) (validation : Bool)
    (data : List (String × DataFrame)) (sal cal : DataFrame) (hier : Hierarchy)
    (hload : load_all_data fs dataDir validation = .ok data)
    (hsal : data.lookup "sales" = some sal)
    (hcal : data.lookup "calendar" = some cal)
    (hh : create_hierarchical_structure sal = .ok hier) :
    (load_and_prepare_data fs dataDir validation false = .ok (data, hier)) ∧
      (∀ melted, melt_sales_data sal cal = .ok melted →
        load_and_prepare_data fs dataDir validation true =
          .ok (data ++ [("sales_melted", melted)], hier)) ∧
      data.lookup "sales_melted" = none := by
  rcases load_all_data_ok_elim hload with ⟨c0, s0, p0, b0, _, _, _, _, hdata⟩
  refine ⟨?_, ?_, ?_⟩
  · unfold load_and_prepare_data
    rw [hload]
    show (match data.lookup "sales", data.lookup "calendar" with
      | some sales, some calendar =>
        Except.bind (create_hierarchical_structure sales) (fun hierarchy =>
          if false = true then
            Except.bind (melt_sales_data sales calendar) (fun melted =>
              .ok (data ++ [("sales_melted", melted)], hierarchy))
          else .ok (data, hierarchy))
      | _, _ => .error "KeyError: sales/calendar") = .ok (data, hier)
    rw [hsal, hcal]
    dsimp only
    rw [hh]
    rfl
  · intro melted hmelt
    unfold load_and_prepare_data
    rw [hload]
    show (match data.lookup "sales", data.lookup "calendar" with
      | some sales, some calendar =>
        Except.bind (create_hierarchical_structure sales) (fun hierarchy =>
          if true = true then
            Except.bind (melt_sales_data sales calendar) (fun melted =>
              .ok (data ++ [("sales_melted", melted)], hierarchy))
          else .ok (data, hierarchy))
      | _, _ => .error "KeyError: sales/calendar") =
      .ok (data ++ [("sales_melted", melted)], hier)
    rw [hsal, hcal]
    dsimp only
    rw [hh, hmelt]
    rfl
  · rw [hdata]
    rfl

/-- Witness for C8 at the complete example directory. -/
theorem load_and_prepare_spec_witness :
    load_all_data exFS "data" true = .ok exData ∧
      create_hierarchical_structure exSalesFull = .ok exHierFull ∧
      ((load_and_prepare_data exFS "data" true false = .ok (exData, exHierFull)) ∧
        (∀ melted, melt_sales_data exSalesFull exLoadedCalendar = .ok melted →
          load_and_prepare_data exFS "data" true true =
            .ok (exData ++ [("sales_melted", melted)], exHierFull)) ∧
        exData.lookup "sales_melted" = none) :=
  ⟨by decide, by decide,
    load_and_prepare_spec exFS "data" true exData exSalesFull exLoadedCalendar
      exHierFull (by decide) (by decide) (by decide) (by decide)⟩

end M5
